import Mathlib

/-!
Shallow embedding of `jjyou::geo::HalfedgeMesh`
(src/include/jjyou/geo/HalfedgeMesh.hpp) in Lean 4.

Modelling conventions:
* Every handle class (`VertexIndex`, `HalfedgeIndex`, `FaceIndex`, `EdgeIndex`)
  wraps a `std::size_t` whose sentinel invalid value is
  `std::numeric_limits<std::size_t>::max() = 2^64 - 1`.  Handles are modelled
  as plain `Nat` with the sentinel `INVALID = 2^64 - 1`; `valid()` is
  `(· ≠ INVALID)`.  All handle comparisons in the source are comparisons of
  the wrapped integers.
* `std::vector` becomes `List`; `vector::resize` keeps the existing prefix
  and pads with default-constructed records; element reads use `List.getD`
  and writes use `List.set`.  An out-of-bounds `operator[]` access is
  undefined behaviour in C++; the theorems about `load` therefore carry
  well-formedness hypotheses (`WFInput`) restricting to inputs on which the
  C++ program performs no out-of-bounds access.
* `Eigen::Vector3d` positions are opaque to the mesh (only `points.size()`
  is ever read by `load`), modelled by an uninterpreted `Vec3` record.
* The `std::map<std::pair<VertexIndex,VertexIndex>, EdgeIndex>` in `load`
  is used only through `operator[]` (default-inserting lookup) and `size()`,
  so it is modelled as an association list to which fresh keys are appended;
  `edges[key]` followed by the `!edge.valid()` branch assigns the fresh entry
  `EdgeIndex(edges.size() - 1)`, i.e. the number of entries before insertion.
* The unused `removed` flags (always false, never read) are dropped.
-/

namespace Geo

/-- `std::numeric_limits<std::size_t>::max()`: the sentinel invalid handle. -/
def INVALID : Nat := 2 ^ 64 - 1

/-- Opaque 3-component position type standing in for `Eigen::Vector3d`;
`HalfedgeMesh::load` never reads the coordinates, only the count. -/
structure Vec3 where
  x : Int
  y : Int
  z : Int
deriving DecidableEq

/-- `HalfedgeMesh::VertexInfo`: one outgoing halfedge handle. -/
structure VertexInfo where
  halfedge : Nat
deriving DecidableEq

/-- `HalfedgeMesh::HalfedgeInfo`: next/prev/target/face handles. -/
structure HalfedgeInfo where
  next : Nat
  prev : Nat
  target : Nat
  face : Nat
deriving DecidableEq

/-- `HalfedgeMesh::FaceInfo`: one boundary halfedge handle. -/
structure FaceInfo where
  halfedge : Nat
deriving DecidableEq

/-- Default-constructed `VertexInfo()` : `halfedge()` is the invalid handle. -/
def VertexInfo.empty : VertexInfo := ⟨INVALID⟩

/-- Default-constructed `HalfedgeInfo()` : all handles invalid. -/
def HalfedgeInfo.empty : HalfedgeInfo := ⟨INVALID, INVALID, INVALID, INVALID⟩

/-- Default-constructed `FaceInfo()` : `halfedge()` is the invalid handle. -/
def FaceInfo.empty : FaceInfo := ⟨INVALID⟩

/-- The three backing arrays of `HalfedgeMesh`. -/
structure HalfedgeMesh where
  vertexInfo : List VertexInfo
  halfedgeInfo : List HalfedgeInfo
  faceInfo : List FaceInfo
deriving DecidableEq

/-- `HalfedgeMesh()` default constructor: three empty vectors. -/
def emptyMesh : HalfedgeMesh := ⟨[], [], []⟩

/-- `HalfedgeMesh::numVertices`. -/
def numVertices (m : HalfedgeMesh) : Nat := m.vertexInfo.length

/-- `HalfedgeMesh::numHalfedges`. -/
def numHalfedges (m : HalfedgeMesh) : Nat := m.halfedgeInfo.length

/-- `HalfedgeMesh::numFaces`. -/
def numFaces (m : HalfedgeMesh) : Nat := m.faceInfo.length

/-- `HalfedgeMesh::numEdges` : `halfedgeInfo.size() / 2`. -/
def numEdges (m : HalfedgeMesh) : Nat := m.halfedgeInfo.length / 2

/-- Read of `vertexInfo[v]` (in-bounds in all modelled executions). -/
def getVI (m : HalfedgeMesh) (v : Nat) : VertexInfo :=
  m.vertexInfo.getD v VertexInfo.empty

/-- Read of `halfedgeInfo[h]` (in-bounds in all modelled executions). -/
def getHE (m : HalfedgeMesh) (h : Nat) : HalfedgeInfo :=
  m.halfedgeInfo.getD h HalfedgeInfo.empty

/-- Read of `faceInfo[f]` (in-bounds in all modelled executions). -/
def getFI (m : HalfedgeMesh) (f : Nat) : FaceInfo :=
  m.faceInfo.getD f FaceInfo.empty

/-- `HalfedgeMesh::vertexOutgoingHalfedge`. -/
def vertexOutgoingHalfedge (m : HalfedgeMesh) (vertex : Nat) : Nat :=
  if vertex < numVertices m then (getVI m vertex).halfedge else INVALID

/-- `HalfedgeMesh::halfedgeTargetVertex`. -/
def halfedgeTargetVertex (m : HalfedgeMesh) (halfedge : Nat) : Nat :=
  if halfedge < numHalfedges m then (getHE m halfedge).target else INVALID

/-- `HalfedgeMesh::halfedgeOppositeHalfedge`: parity flip on the offset. -/
def halfedgeOppositeHalfedge (m : HalfedgeMesh) (halfedge : Nat) : Nat :=
  if halfedge < numHalfedges m then
    (if halfedge % 2 = 1 then halfedge - 1 else halfedge + 1)
  else INVALID

/-- `HalfedgeMesh::vertexIngoingHalfedge` : opposite of the outgoing one. -/
def vertexIngoingHalfedge (m : HalfedgeMesh) (vertex : Nat) : Nat :=
  halfedgeOppositeHalfedge m (vertexOutgoingHalfedge m vertex)

/-- `HalfedgeMesh::halfedgeSourceVertex` : target of the opposite. -/
def halfedgeSourceVertex (m : HalfedgeMesh) (halfedge : Nat) : Nat :=
  halfedgeTargetVertex m (halfedgeOppositeHalfedge m halfedge)

/-- `HalfedgeMesh::halfedgeNextHalfedge`. -/
def halfedgeNextHalfedge (m : HalfedgeMesh) (halfedge : Nat) : Nat :=
  if halfedge < numHalfedges m then (getHE m halfedge).next else INVALID

/-- `HalfedgeMesh::halfedgePreviousHalfedge`. -/
def halfedgePreviousHalfedge (m : HalfedgeMesh) (halfedge : Nat) : Nat :=
  if halfedge < numHalfedges m then (getHE m halfedge).prev else INVALID

/-- `HalfedgeMesh::halfedgeAssociatedFace`. -/
def halfedgeAssociatedFace (m : HalfedgeMesh) (halfedge : Nat) : Nat :=
  if halfedge < numHalfedges m then (getHE m halfedge).face else INVALID

/-- `HalfedgeMesh::halfedgeAssociatedEdge` : offset divided by 2. -/
def halfedgeAssociatedEdge (m : HalfedgeMesh) (halfedge : Nat) : Nat :=
  if halfedge < numHalfedges m then halfedge / 2 else INVALID

/-- `HalfedgeMesh::faceAssociatedHalfedge`. -/
def faceAssociatedHalfedge (m : HalfedgeMesh) (face : Nat) : Nat :=
  if face < numFaces m then (getFI m face).halfedge else INVALID

/-- `HalfedgeMesh::edgeAssociatedHalfedge` : `dir` selects the even or odd
member of the pair. -/
def edgeAssociatedHalfedge (m : HalfedgeMesh) (edge : Nat) (dir : Bool) : Nat :=
  if edge < numEdges m then (if dir then edge * 2 else edge * 2 + 1) else INVALID

/-- `HalfedgeMesh::reset` — the body of this member function is empty in the
source; it performs no state change at all. -/
def reset (m : HalfedgeMesh) : HalfedgeMesh := m

/-- `std::vector::resize(n)`: keep the first `n` elements, pad with
default-constructed elements when growing. -/
def resizeWith (l : List α) (n : Nat) (d : α) : List α :=
  l.take n ++ List.replicate (n - l.length) d

/-- The edge map of `HalfedgeMesh::load`: association list from undirected
vertex-pair keys to edge handles, in insertion order. -/
abbrev Edges := List ((Nat × Nat) × Nat)

/-- Lookup in the edge map (`std::map` lookup; order of the assoc list is
immaterial because keys are unique). -/
def findEdge (ed : Edges) (key : Nat × Nat) : Option Nat :=
  (List.find? (fun p => p.1 = key) ed).map (fun p => p.2)

/-- Source vertex `v1` of boundary step `hi` of face `f` (with `n = f.length`):
`f[(hi - 1 + f.size()) % f.size()]`. -/
def stepV1 (f : List Nat) (n hi : Nat) : Nat := f.getD ((hi + n - 1) % n) 0

/-- Destination vertex `v2` of boundary step `hi` of face `f`: `f[hi]`. -/
def stepV2 (f : List Nat) (hi : Nat) : Nat := f.getD hi 0

/-- The direction flag of a boundary step: `false` iff `v1 > v2`. -/
def stepDir (f : List Nat) (n hi : Nat) : Bool := !(decide (stepV1 f n hi > stepV2 f hi))

/-- The undirected key of a boundary step: `(min(v1,v2), max(v1,v2))`. -/
def stepKey (f : List Nat) (n hi : Nat) : Nat × Nat :=
  if stepV1 f n hi > stepV2 f hi then (stepV2 f hi, stepV1 f n hi) else (stepV1 f n hi, stepV2 f hi)

/-- First per-face loop of `HalfedgeMesh::load` over the boundary-step indices
`his`: looks the undirected key of each step up in the edge map, appending a
fresh opposite-pair of default `HalfedgeInfo` records for unseen keys, and
records the directed halfedge of each step. -/
def pass1 (f : List Nat) (n : Nat) :
    List Nat → HalfedgeMesh → Edges → HalfedgeMesh × Edges × List Nat
  | [], m, ed => (m, ed, [])
  | hi :: rest, m, ed =>
    match findEdge ed (stepKey f n hi) with
    | some e =>
      let h := edgeAssociatedHalfedge m e (stepDir f n hi)
      let r := pass1 f n rest m ed
      (r.1, r.2.1, h :: r.2.2)
    | none =>
      let e := ed.length
      let m1 : HalfedgeMesh :=
        ⟨m.vertexInfo, m.halfedgeInfo ++ [HalfedgeInfo.empty, HalfedgeInfo.empty], m.faceInfo⟩
      let ed1 : Edges := ed ++ [(stepKey f n hi, e)]
      let h := edgeAssociatedHalfedge m1 e (stepDir f n hi)
      let r := pass1 f n rest m1 ed1
      (r.1, r.2.1, h :: r.2.2)

/-- Write `vertexInfo[v1].halfedge = h` when it is still invalid
(`if (!vertexInfo[v1].halfedge.valid())`). -/
def setVertexHalfedgeIfUnset (m : HalfedgeMesh) (v h : Nat) : HalfedgeMesh :=
  if (getVI m v).halfedge = INVALID then
    ⟨m.vertexInfo.set v ⟨h⟩, m.halfedgeInfo, m.faceInfo⟩
  else m

/-- Write all four fields of `halfedgeInfo[h]` (the source assigns
`next`, `prev`, `target` and `face` individually; together they overwrite
the whole record). -/
def setHE (m : HalfedgeMesh) (h : Nat) (rec : HalfedgeInfo) : HalfedgeMesh :=
  ⟨m.vertexInfo, m.halfedgeInfo.set h rec, m.faceInfo⟩

/-- Write only `halfedgeInfo[h].target`. -/
def setTarget (m : HalfedgeMesh) (h v : Nat) : HalfedgeMesh :=
  ⟨m.vertexInfo, m.halfedgeInfo.set h { m.halfedgeInfo.getD h HalfedgeInfo.empty with target := v },
    m.faceInfo⟩

/-- Write `faceInfo[fi].halfedge`. -/
def setFaceHalfedge (m : HalfedgeMesh) (fi h : Nat) : HalfedgeMesh :=
  ⟨m.vertexInfo, m.halfedgeInfo, m.faceInfo.set fi ⟨h⟩⟩

/-- The state change of one successful iteration of the second per-face loop
of `HalfedgeMesh::load` at boundary step `hi`: record the vertex's outgoing
half-edge if still unset, write `next`/`prev`/`target`/`face` of the step's
half-edge, and write the opposite half-edge's `target`. -/
def pass2Step (fi : Nat) (f : List Nat) (n : Nat) (hs : List Nat) (hi : Nat)
    (m : HalfedgeMesh) : HalfedgeMesh :=
  let v1 := stepV1 f n hi
  let v2 := stepV2 f hi
  let h := hs.getD hi 0
  let m1 := setVertexHalfedgeIfUnset m v1 h
  let m2 := setHE m1 h ⟨hs.getD ((hi + 1) % n) 0, hs.getD ((hi + n - 1) % n) 0, v2, fi⟩
  let oppo := halfedgeOppositeHalfedge m2 h
  setTarget m2 oppo v1

/-- Second per-face loop of `HalfedgeMesh::load` over the boundary-step
indices `his`: the non-manifold check (`face` already valid ⇒ `reset` and
return `false`) followed by the step's writes. -/
def pass2 (fi : Nat) (f : List Nat) (n : Nat) (hs : List Nat) :
    List Nat → HalfedgeMesh → Bool × HalfedgeMesh
  | [], m => (true, m)
  | hi :: rest, m =>
    if (getHE m (hs.getD hi 0)).face ≠ INVALID then (false, reset m)
    else pass2 fi f n hs rest (pass2Step fi f n hs hi m)

/-- The outer loop of `HalfedgeMesh::load` over the face list, threading the
face counter `fi`, the mesh and the edge map. -/
def loadLoop : List (List Nat) → Nat → HalfedgeMesh → Edges → Bool × HalfedgeMesh
  | [], _, m, _ => (true, m)
  | f :: rest, fi, m, ed =>
    let r1 := pass1 f f.length (List.range f.length) m ed
    match pass2 fi f f.length r1.2.2 (List.range f.length) r1.1 with
    | (false, m2) => (false, m2)
    | (true, m2) => loadLoop rest (fi + 1) (setFaceHalfedge m2 fi (r1.2.2.getD 0 INVALID)) r1.2.1

/-- `HalfedgeMesh::load`.  Returns the boolean result together with the mesh
state after the call (the source mutates `*this`; on failure it calls the
empty-bodied `reset` and returns `false`, leaving the partially built arrays
in place). -/
def load (m : HalfedgeMesh) (points : List Vec3) (faces : List (List Nat)) :
    Bool × HalfedgeMesh :=
  let m0 := reset m
  let m1 : HalfedgeMesh :=
    ⟨resizeWith m0.vertexInfo points.length VertexInfo.empty,
      m0.halfedgeInfo,
      resizeWith m0.faceInfo faces.length FaceInfo.empty⟩
  loadLoop faces 0 m1 []

/-- Inputs on which the C++ `load` performs no out-of-bounds vector access
and no `int` face-counter overflow: every face is non-empty (an empty face
would read `faceHalfedges[0]` of an empty vector), every vertex index is in
range of the vertex array, and the face count is representable (a face count
of `SIZE_MAX` or more is impossible in a real process). -/
def WFInput (points : List Vec3) (faces : List (List Nat)) : Prop :=
  faces.length ≤ INVALID ∧
  (∀ f ∈ faces, f ≠ []) ∧
  (∀ f ∈ faces, ∀ v ∈ f, v < points.length)

instance (points : List Vec3) (faces : List (List Nat)) :
    Decidable (WFInput points faces) := by
  unfold WFInput; infer_instance

/-! ### Traversal iterators -/

/-- State of `HalfedgeMesh::VertexHalfedgeIterator` (the mesh pointer is
passed separately; our ranges always construct with a non-null mesh). -/
structure VHIter where
  center : Nat
  outgoing : Bool
  clockwise : Bool
  ended : Bool
  start : Nat
  current : Nat
deriving DecidableEq

/-- The private `VertexHalfedgeIterator` constructor: `end` absorbs an
out-of-range center; an explicit `start` not incident to the center falls
back to the default representative; an invalid start ends the iterator. -/
def mkVHIter (m : HalfedgeMesh) (center : Nat) (outgoing clockwise endA : Bool)
    (start : Nat) : VHIter :=
  let e0 := endA || decide (center ≥ numVertices m)
  let st :=
    if e0 then INVALID
    else if outgoing then
      (if halfedgeSourceVertex m start = center then start
       else vertexOutgoingHalfedge m center)
    else
      (if halfedgeTargetVertex m start = center then start
       else vertexIngoingHalfedge m center)
  ⟨center, outgoing, clockwise, if st = INVALID then true else e0, st, st⟩

/-- `VertexHalfedgeIterator::operator++`: the four rotation formulas keyed on
`(outgoing, clockwise)`; the iterator ends on an invalid halfedge or on
returning to its start. -/
def vhSucc (m : HalfedgeMesh) (it : VHIter) : VHIter :=
  if it.ended then it
  else
    let c :=
      match it.outgoing, it.clockwise with
      | false, false => halfedgePreviousHalfedge m (halfedgeOppositeHalfedge m it.current)
      | false, true => halfedgeOppositeHalfedge m (halfedgeNextHalfedge m it.current)
      | true, false => halfedgeOppositeHalfedge m (halfedgePreviousHalfedge m it.current)
      | true, true => halfedgeNextHalfedge m (halfedgeOppositeHalfedge m it.current)
    { it with current := c, ended := decide (c = INVALID) || decide (c = it.start) }

/-- The elements yielded by iterating a `VertexHalfedgeRange` from a given
iterator state (fuel-bounded; `numHalfedges + 1` fuel is enough for every
terminating C++ iteration). -/
def vhListAux (m : HalfedgeMesh) : Nat → VHIter → List Nat
  | 0, _ => []
  | fuel + 1, it => if it.ended then [] else it.current :: vhListAux m fuel (vhSucc m it)

/-- Elements of `HalfedgeMesh::vertexHalfedges(center, outgoing, clockwise,
start)` traversed by a range-`for`. -/
def vertexHalfedgesList (m : HalfedgeMesh) (center : Nat) (outgoing clockwise : Bool)
    (start : Nat) : List Nat :=
  vhListAux m (numHalfedges m + 1) (mkVHIter m center outgoing clockwise false start)

/-- The search loop in the `VertexFaceIterator` constructor: advance the
underlying outgoing-halfedge rotation until its associated face is `start`. -/
def vfFind (m : HalfedgeMesh) (start : Nat) : Nat → VHIter → Option Nat
  | 0, _ => none
  | fuel + 1, it =>
    if it.ended then none
    else if halfedgeAssociatedFace m it.current = start then some it.current
    else vfFind m start fuel (vhSucc m it)

/-- Elements of `HalfedgeMesh::vertexFaces(center, clockwise, start)`: the
constructor searches for a halfedge whose face is `start` (only when both
`center` and `start` are in range), then each yielded element is the
associated face of the underlying rotation's current halfedge. -/
def vertexFacesList (m : HalfedgeMesh) (center : Nat) (clockwise : Bool)
    (start : Nat) : List Nat :=
  let it0 := mkVHIter m center true clockwise false INVALID
  let it1 :=
    if center < numVertices m ∧ start < numFaces m then
      match vfFind m start (numHalfedges m + 1) it0 with
      | some h => mkVHIter m center true clockwise false h
      | none => mkVHIter m center true clockwise false INVALID
    else it0
  (vhListAux m (numHalfedges m + 1) it1).map (halfedgeAssociatedFace m)

/-- State of `HalfedgeMesh::FaceHalfedgeIterator`. -/
structure FHIter where
  center : Nat
  positiveOrder : Bool
  ended : Bool
  start : Nat
  current : Nat
deriving DecidableEq

/-- The private `FaceHalfedgeIterator` constructor: `end` absorbs an
out-of-range center; a `start` not on the face falls back to the face's
associated halfedge; an invalid start ends the iterator. -/
def mkFHIter (m : HalfedgeMesh) (center : Nat) (positiveOrder endA : Bool)
    (start : Nat) : FHIter :=
  let e0 := endA || decide (center ≥ numFaces m)
  let st :=
    if e0 then INVALID
    else if halfedgeAssociatedFace m start = center then start
    else faceAssociatedHalfedge m center
  ⟨center, positiveOrder, if st = INVALID then true else e0, st, st⟩

/-- `FaceHalfedgeIterator::operator++`: step by `next` (positive order) or
`prev`; ends on an invalid halfedge or on returning to the start. -/
def fhSucc (m : HalfedgeMesh) (it : FHIter) : FHIter :=
  if it.ended then it
  else
    let c :=
      if it.positiveOrder then halfedgeNextHalfedge m it.current
      else halfedgePreviousHalfedge m it.current
    { it with current := c, ended := decide (c = INVALID) || decide (c = it.start) }

/-- The elements yielded by iterating a `FaceHalfedgeRange` (fuel-bounded). -/
def fhListAux (m : HalfedgeMesh) : Nat → FHIter → List Nat
  | 0, _ => []
  | fuel + 1, it => if it.ended then [] else it.current :: fhListAux m fuel (fhSucc m it)

/-- Elements of `HalfedgeMesh::faceHalfedges(center, positiveOrder, start)`. -/
def faceHalfedgesList (m : HalfedgeMesh) (center : Nat) (positiveOrder : Bool)
    (start : Nat) : List Nat :=
  fhListAux m (numHalfedges m + 1) (mkFHIter m center positiveOrder false start)

/-- The search loop in the `FaceVertexIterator` constructor: advance the
face walk until the current halfedge's target vertex is `start`. -/
def fvFind (m : HalfedgeMesh) (start : Nat) : Nat → FHIter → Option Nat
  | 0, _ => none
  | fuel + 1, it =>
    if it.ended then none
    else if halfedgeTargetVertex m it.current = start then some it.current
    else fvFind m start fuel (fhSucc m it)

/-- Elements of `HalfedgeMesh::faceVertices(center, positiveOrder, start)`:
the constructor searches for a halfedge whose target is `start` (only when
both `center` and `start` are in range), then each yielded element is the
target of the underlying walk's current halfedge. -/
def faceVerticesList (m : HalfedgeMesh) (center : Nat) (positiveOrder : Bool)
    (start : Nat) : List Nat :=
  let it0 := mkFHIter m center positiveOrder false INVALID
  let it1 :=
    if center < numFaces m ∧ start < numVertices m then
      match fvFind m start (numHalfedges m + 1) it0 with
      | some h => mkFHIter m center positiveOrder false h
      | none => mkFHIter m center positiveOrder false INVALID
    else it0
  (fhListAux m (numHalfedges m + 1) it1).map (halfedgeTargetVertex m)

/-! ### Concrete test inputs -/

/-- An arbitrary position (coordinates are never read by `load`). -/
def pt0 : Vec3 := ⟨0, 0, 0⟩

/-- Single-triangle input: 3 vertices, one face `[0,1,2]`. -/
def triPoints : List Vec3 := [pt0, pt0, pt0]

/-- Single-triangle face list. -/
def triFaces : List (List Nat) := [[0, 1, 2]]

/-- Result of loading the single triangle into a fresh mesh. -/
def triLoad : Bool × HalfedgeMesh := load emptyMesh triPoints triFaces

/-- Tetrahedron input: 4 vertices, 4 triangular faces, consistent winding
(each edge shared by exactly two faces in opposite directions). -/
def tetPoints : List Vec3 := [pt0, pt0, pt0, pt0]

/-- Tetrahedron face list. -/
def tetFaces : List (List Nat) := [[0, 1, 2], [0, 2, 3], [0, 3, 1], [1, 3, 2]]

/-- Result of loading the tetrahedron into a fresh mesh. -/
def tetLoad : Bool × HalfedgeMesh := load emptyMesh tetPoints tetFaces

/-- Non-manifold input: two triangles using the directed vertex pair `0→1`
in the same direction (the spec §8 failure scenario). -/
def nonManifoldFaces : List (List Nat) := [[0, 1, 2], [0, 1, 3]]

/-- Result of loading the non-manifold input into a fresh mesh. -/
def nonManifoldLoad : Bool × HalfedgeMesh :=
  load emptyMesh [pt0, pt0, pt0, pt0] nonManifoldFaces

/-- A single two-vertex (degenerate) face. -/
def bigonLoad : Bool × HalfedgeMesh := load emptyMesh [pt0, pt0] [[0, 1]]

/-- A face with a repeated consecutive vertex, producing a self-loop edge. -/
def selfLoopLoad : Bool × HalfedgeMesh := load emptyMesh [pt0, pt0] [[0, 0, 1]]

/-- Result of calling `load` a second time, with the same valid input, on the
mesh produced by the first (successful) call. -/
def triLoadTwice : Bool × HalfedgeMesh := load triLoad.2 triPoints triFaces

/-! ### Invariants of the construction algorithm -/

/-- The half-edge of pair `e` selected by direction `dir`
(the value of `edgeAssociatedHalfedge` when the guard holds). -/
def pairHalfedge (e : Nat) (dir : Bool) : Nat := if dir then e * 2 else e * 2 + 1

/-- Placeholder edge-map entry used as a `getD` default. -/
def dEd : (Nat × Nat) × Nat := ((0, 0), 0)

/-- Invariant of the edge map during a fresh `load`: entries are numbered by
their insertion position, the half-edge array holds exactly one opposite
pair per map entry, and keys are unique (`std::map` semantics). -/
structure EdInv (m : HalfedgeMesh) (ed : Edges) : Prop where
  pos : ∀ i : Nat, i < ed.length → (ed.getD i dEd).2 = i
  len : 2 * ed.length = m.halfedgeInfo.length
  keys : (ed.map Prod.fst).Nodup

/-- A fully initialised edge-map entry: the even half-edge of the pair
targets the larger endpoint of the undirected key and the odd one the
smaller. -/
def Correct (m : HalfedgeMesh) (p : (Nat × Nat) × Nat) : Prop :=
  p.1.1 ≤ p.1.2 ∧
  (getHE m (2 * p.2)).target = p.1.2 ∧
  (getHE m (2 * p.2 + 1)).target = p.1.1

/-- The fully linked boundary loop of face `fi` built from input face `f`:
a list `hs` of pairwise distinct in-bounds half-edges, cyclically linked by
`next`, all carrying face `fi`, whose head is the face's associated
half-edge. -/
def FaceLoop (m : HalfedgeMesh) (f : List Nat) (fi : Nat) : Prop :=
  ∃ hs : List Nat,
    hs.length = f.length ∧
    (f ≠ [] → faceAssociatedHalfedge m fi = hs.getD 0 0) ∧
    (∀ i < f.length,
      hs.getD i 0 < m.halfedgeInfo.length ∧
      (getHE m (hs.getD i 0)).next = hs.getD ((i + 1) % f.length) 0 ∧
      (getHE m (hs.getD i 0)).face = fi) ∧
    (∀ i j, i < f.length → j < f.length → hs.getD i 0 = hs.getD j 0 → i = j)

/-! ### Theorems -/

/-- `List.getD` after `List.set` at the same (in-bounds) index. -/
theorem getD_set_self {l : List α} {i : Nat} (h : i < l.length) (a d : α) :
    (l.set i a).getD i d = a := by
  rw [List.getD_eq_getElem?_getD, List.getElem?_set_self h]; rfl

/-- `List.getD` after `List.set` at a different index. -/
theorem getD_set_ne {l : List α} {i j : Nat} (h : i ≠ j) (a d : α) :
    (l.set i a).getD j d = l.getD j d := by
  rw [List.getD_eq_getElem?_getD, List.getElem?_set_ne h, ← List.getD_eq_getElem?_getD]

/-- `List.getD` of an append, left part. -/
theorem getD_append_left {l t : List α} {i : Nat} (h : i < l.length) (d : α) :
    (l ++ t).getD i d = l.getD i d := by
  rw [List.getD_eq_getElem?_getD, List.getElem?_append, if_pos h, ← List.getD_eq_getElem?_getD]

/-- In-bounds `List.getD` does not depend on the default. -/
theorem getD_default_irrel {l : List α} {i : Nat} (h : i < l.length) (d d' : α) :
    l.getD i d = l.getD i d' := by
  rw [List.getD_eq_getElem l d h, List.getD_eq_getElem l d' h]

/-! #### Stepping lemmas for the mesh setters -/

theorem halfedgeInfo_setVertex (m : HalfedgeMesh) (v h : Nat) :
    (setVertexHalfedgeIfUnset m v h).halfedgeInfo = m.halfedgeInfo := by
  unfold setVertexHalfedgeIfUnset; split <;> rfl

theorem faceInfo_setVertex (m : HalfedgeMesh) (v h : Nat) :
    (setVertexHalfedgeIfUnset m v h).faceInfo = m.faceInfo := by
  unfold setVertexHalfedgeIfUnset; split <;> rfl

theorem len_setHE (m : HalfedgeMesh) (q : Nat) (r : HalfedgeInfo) :
    (setHE m q r).halfedgeInfo.length = m.halfedgeInfo.length := by
  unfold setHE; exact List.length_set m.halfedgeInfo q r

theorem faceInfo_setHE (m : HalfedgeMesh) (q : Nat) (r : HalfedgeInfo) :
    (setHE m q r).faceInfo = m.faceInfo := rfl

theorem getHE_setHE_self (m : HalfedgeMesh) {q : Nat} (hq : q < m.halfedgeInfo.length)
    (r : HalfedgeInfo) : getHE (setHE m q r) q = r := by
  unfold getHE setHE; exact getD_set_self hq r HalfedgeInfo.empty

theorem getHE_setHE_ne (m : HalfedgeMesh) {q h : Nat} (hne : q ≠ h) (r : HalfedgeInfo) :
    getHE (setHE m q r) h = getHE m h := by
  unfold getHE setHE; exact getD_set_ne hne r HalfedgeInfo.empty

theorem len_setTarget (m : HalfedgeMesh) (q v : Nat) :
    (setTarget m q v).halfedgeInfo.length = m.halfedgeInfo.length := by
  unfold setTarget; exact List.length_set _ q _

theorem faceInfo_setTarget (m : HalfedgeMesh) (q v : Nat) :
    (setTarget m q v).faceInfo = m.faceInfo := rfl

theorem getHE_setTarget_self (m : HalfedgeMesh) {q : Nat} (hq : q < m.halfedgeInfo.length)
    (v : Nat) : getHE (setTarget m q v) q = { getHE m q with target := v } := by
  unfold getHE setTarget; exact getD_set_self hq _ HalfedgeInfo.empty

theorem getHE_setTarget_ne (m : HalfedgeMesh) {q h : Nat} (hne : q ≠ h) (v : Nat) :
    getHE (setTarget m q v) h = getHE m h := by
  unfold getHE setTarget; exact getD_set_ne hne _ HalfedgeInfo.empty

/-- `setTarget` never changes the `next`, `prev` or `face` field of any
record. -/
theorem getHE_setTarget_fields (m : HalfedgeMesh) (q v h : Nat) :
    (getHE (setTarget m q v) h).next = (getHE m h).next ∧
    (getHE (setTarget m q v) h).prev = (getHE m h).prev ∧
    (getHE (setTarget m q v) h).face = (getHE m h).face := by
  by_cases hq : q = h
  · subst hq
    by_cases hlt : q < m.halfedgeInfo.length
    · rw [getHE_setTarget_self m hlt v]; exact ⟨rfl, rfl, rfl⟩
    · have : (setTarget m q v).halfedgeInfo = m.halfedgeInfo := by
        unfold setTarget
        simp only [List.set_eq_of_length_le (by omega : m.halfedgeInfo.length ≤ q)]
      unfold getHE; rw [this]; exact ⟨rfl, rfl, rfl⟩
  · rw [getHE_setTarget_ne m hq v]; exact ⟨rfl, rfl, rfl⟩

theorem halfedgeInfo_setFace (m : HalfedgeMesh) (fi h : Nat) :
    (setFaceHalfedge m fi h).halfedgeInfo = m.halfedgeInfo := rfl

theorem vertexInfo_setFace (m : HalfedgeMesh) (fi h : Nat) :
    (setFaceHalfedge m fi h).vertexInfo = m.vertexInfo := rfl

theorem faceInfoLen_setFace (m : HalfedgeMesh) (fi h : Nat) :
    (setFaceHalfedge m fi h).faceInfo.length = m.faceInfo.length := by
  unfold setFaceHalfedge; exact List.length_set _ fi _

theorem getFI_setFace_self (m : HalfedgeMesh) {fi : Nat} (hq : fi < m.faceInfo.length)
    (h : Nat) : getFI (setFaceHalfedge m fi h) fi = ⟨h⟩ := by
  unfold getFI setFaceHalfedge; exact getD_set_self hq _ FaceInfo.empty

theorem getFI_setFace_ne (m : HalfedgeMesh) {fi j : Nat} (hne : fi ≠ j) (h : Nat) :
    getFI (setFaceHalfedge m fi h) j = getFI m j := by
  unfold getFI setFaceHalfedge; exact getD_set_ne hne _ FaceInfo.empty

/-! #### Edge-map lemmas -/

/-- Every entry's recorded index is below the map size (from `EdInv.pos`). -/
theorem mem_idx_lt {ed : Edges}
    (hpos : ∀ i : Nat, i < ed.length → (ed.getD i dEd).2 = i)
    {p : (Nat × Nat) × Nat} (hp : p ∈ ed) : p.2 < ed.length := by
  obtain ⟨⟨i, hi⟩, rfl⟩ := List.get_of_mem hp
  rw [List.get_eq_getElem, ← List.getD_eq_getElem ed dEd hi, hpos i hi]
  exact hi

/-- With position-numbered entries, an entry is determined by its index. -/
theorem mem_idx_eq {ed : Edges}
    (hpos : ∀ i : Nat, i < ed.length → (ed.getD i dEd).2 = i)
    {p : (Nat × Nat) × Nat} (hp : p ∈ ed) : p = ed.getD p.2 dEd := by
  obtain ⟨⟨i, hi⟩, rfl⟩ := List.get_of_mem hp
  rw [List.get_eq_getElem, ← List.getD_eq_getElem ed dEd hi, hpos i hi]

theorem findEdge_some {ed : Edges} {key : Nat × Nat} {e : Nat}
    (h : findEdge ed key = some e) : (key, e) ∈ ed := by
  unfold findEdge at h
  obtain ⟨p, hp, hpe⟩ := Option.map_eq_some'.1 h
  have hkey : p.1 = key := by
    have := List.find?_some hp
    exact of_decide_eq_true this
  have hmem := List.mem_of_find?_eq_some hp
  have : p = (key, e) := by
    cases p; simp only at hkey hpe; subst hkey; subst hpe; rfl
  rwa [this] at hmem

theorem findEdge_none {ed : Edges} {key : Nat × Nat}
    (h : findEdge ed key = none) : key ∉ ed.map Prod.fst := by
  unfold findEdge at h
  have h2 : List.find? (fun p => decide (p.1 = key)) ed = none := by
    cases hf : List.find? (fun p => decide (p.1 = key)) ed with
    | none => rfl
    | some p => rw [hf] at h; simp at h
  intro hmem
  obtain ⟨p, hp, hpk⟩ := List.mem_map.1 hmem
  have := List.find?_eq_none.1 h2 p hp
  simp only [decide_eq_true_eq] at this
  exact this hpk

/-- With unique keys, membership determines the lookup result. -/
theorem findEdge_eq_some_of_mem {ed : Edges} (hkeys : (ed.map Prod.fst).Nodup)
    {key : Nat × Nat} {e : Nat} (hmem : (key, e) ∈ ed) : findEdge ed key = some e := by
  induction ed with
  | nil => cases hmem
  | cons p rest ih =>
    rw [List.map_cons, List.nodup_cons] at hkeys
    rcases List.mem_cons.1 hmem with heq | htail
    · unfold findEdge
      rw [List.find?_cons_of_pos _ (by rw [← heq]; exact decide_eq_true rfl)]
      rw [← heq]
      rfl
    · by_cases hpk : p.1 = key
      · exfalso
        apply hkeys.1
        rw [hpk]
        exact List.mem_map.2 ⟨(key, e), htail, rfl⟩
      · unfold findEdge
        rw [List.find?_cons_of_neg _ (by simpa using hpk)]
        exact ih hkeys.2 htail

/-- C5: on any mesh whose arrays are not larger than the sentinel (always
true of a real process), every read query given a handle whose offset is out
of the corresponding array's bounds — which includes the sentinel invalid
value — returns the sentinel invalid handle. -/
theorem c5_queries_total (m : HalfedgeMesh)
    (hh : numHalfedges m ≤ INVALID) :
    (∀ v, numVertices m ≤ v →
      vertexOutgoingHalfedge m v = INVALID ∧ vertexIngoingHalfedge m v = INVALID) ∧
    (∀ h, numHalfedges m ≤ h →
      halfedgeSourceVertex m h = INVALID ∧
      halfedgeTargetVertex m h = INVALID ∧
      halfedgeOppositeHalfedge m h = INVALID ∧
      halfedgeNextHalfedge m h = INVALID ∧
      halfedgePreviousHalfedge m h = INVALID ∧
      halfedgeAssociatedFace m h = INVALID ∧
      halfedgeAssociatedEdge m h = INVALID) ∧
    (∀ f, numFaces m ≤ f → faceAssociatedHalfedge m f = INVALID) ∧
    (∀ e dir, numEdges m ≤ e → edgeAssociatedHalfedge m e dir = INVALID) := by
  have hoppInv : halfedgeOppositeHalfedge m INVALID = INVALID := by
    unfold halfedgeOppositeHalfedge; rw [if_neg]; omega
  have htgtInv : halfedgeTargetVertex m INVALID = INVALID := by
    unfold halfedgeTargetVertex; rw [if_neg]; omega
  refine ⟨fun v hv' => ?_, fun h hh' => ?_, fun f hf' => ?_, fun e dir he' => ?_⟩
  · have h1 : vertexOutgoingHalfedge m v = INVALID := by
      unfold vertexOutgoingHalfedge; rw [if_neg]; omega
    exact ⟨h1, by unfold vertexIngoingHalfedge; rw [h1, hoppInv]⟩
  · have h1 : halfedgeOppositeHalfedge m h = INVALID := by
      unfold halfedgeOppositeHalfedge; rw [if_neg]; omega
    refine ⟨?_, ?_, h1, ?_, ?_, ?_, ?_⟩
    · unfold halfedgeSourceVertex; rw [h1, htgtInv]
    · unfold halfedgeTargetVertex; rw [if_neg]; omega
    · unfold halfedgeNextHalfedge; rw [if_neg]; omega
    · unfold halfedgePreviousHalfedge; rw [if_neg]; omega
    · unfold halfedgeAssociatedFace; rw [if_neg]; omega
    · unfold halfedgeAssociatedEdge; rw [if_neg]; omega
  · unfold faceAssociatedHalfedge; rw [if_neg]; omega
  · unfold edgeAssociatedHalfedge; rw [if_neg]; omega

/-- C5 witness: on the empty mesh every array has size 0, so the handles 0
(out of bounds) and the sentinel itself are both rejected. -/
theorem c5_queries_total_witness :
    vertexOutgoingHalfedge emptyMesh 0 = INVALID ∧
    halfedgeSourceVertex emptyMesh INVALID = INVALID ∧
    edgeAssociatedHalfedge emptyMesh 5 true = INVALID :=
  ⟨((c5_queries_total emptyMesh (by decide)).1 0 (by decide)).1,
   ((c5_queries_total emptyMesh (by decide)).2.1 INVALID (by decide)).1,
   (c5_queries_total emptyMesh (by decide)).2.2.2 5 true (by decide)⟩

/-- C1: evaluation of the code at the failing input.  On the non-manifold
input `[[0,1,2],[0,1,3]]` (directed pair `0→1` used by two face incidences in
the same direction), `load` returns `false` as the claim says, but because
`reset()` has an empty body the mesh is NOT left empty: it retains 4
vertices, 10 half-edges and 2 faces, contradicting the claimed
`numVertices == numHalfedges == numFaces == 0`. -/
theorem c1_failed_load_leaves_partial_mesh :
    nonManifoldLoad.1 = false ∧
    numVertices nonManifoldLoad.2 = 4 ∧
    numHalfedges nonManifoldLoad.2 = 10 ∧
    numFaces nonManifoldLoad.2 = 2 := by
  decide

/-- C6: loading the single triangle succeeds with
`numVertices = 3, numHalfedges = 6, numFaces = 1, numEdges = 3`, and
`faceVertices` of face 0, started at the default representative, enumerates
exactly the vertices `[0, 1, 2]` (each once, in rotational order). -/
theorem c6_triangle_load :
    triLoad.1 = true ∧
    numVertices triLoad.2 = 3 ∧
    numHalfedges triLoad.2 = 6 ∧
    numFaces triLoad.2 = 1 ∧
    numEdges triLoad.2 = 3 ∧
    faceVerticesList triLoad.2 0 true INVALID = [0, 1, 2] := by
  decide

/-- C7: loading the tetrahedron succeeds with
`numVertices = 4, numHalfedges = 12, numFaces = 4, numEdges = 6`, and the
`vertexFaces` range of each of the four vertices yields exactly 3 faces. -/
theorem c7_tetrahedron_load :
    tetLoad.1 = true ∧
    numVertices tetLoad.2 = 4 ∧
    numHalfedges tetLoad.2 = 12 ∧
    numFaces tetLoad.2 = 4 ∧
    numEdges tetLoad.2 = 6 ∧
    (vertexFacesList tetLoad.2 0 true INVALID).length = 3 ∧
    (vertexFacesList tetLoad.2 1 true INVALID).length = 3 ∧
    (vertexFacesList tetLoad.2 2 true INVALID).length = 3 ∧
    (vertexFacesList tetLoad.2 3 true INVALID).length = 3 ∧
    (vertexFacesList tetLoad.2 0 true INVALID).Nodup ∧
    (vertexFacesList tetLoad.2 1 true INVALID).Nodup ∧
    (vertexFacesList tetLoad.2 2 true INVALID).Nodup ∧
    (vertexFacesList tetLoad.2 3 true INVALID).Nodup := by
  decide

/-- C9 counterexample: the first `load` of the triangle succeeds, but a
second `load` of the same valid input on the same mesh instance returns
`false`, not `true`: the fresh edge map hands out edge indices starting
from 0 again, `edgeAssociatedHalfedge` therefore resolves them to the OLD
half-edges (whose `face` fields are still set, `reset` being a no-op), and
the non-manifold check fires. -/
theorem c9_second_load_returns_false :
    triLoad.1 = true ∧ triLoadTwice.1 = false := by
  decide

/-- C9 amended: the second call returns `false` (not `true`); the half-edge
array is indeed not cleared, so after the failed second call `numHalfedges`
is 12, twice its value 6 after the first call, while `numVertices = 3` and
`numFaces = 1` are unchanged. -/
theorem c9_second_load_state :
    triLoadTwice.1 = false ∧
    numHalfedges triLoad.2 = 6 ∧
    numHalfedges triLoadTwice.2 = 12 ∧
    numVertices triLoadTwice.2 = 3 ∧
    numFaces triLoadTwice.2 = 1 := by
  decide

/-- C4 counterexample: a face with fewer than 3 vertices is NOT skipped.
`load` has no size check at all: loading the single two-vertex face `[0,1]`
succeeds and the face contributes 2 half-edges (the claim says it
contributes none and the mesh is as if the face were absent, which would
leave 0 half-edges). -/
theorem c4_short_face_not_skipped :
    bigonLoad.1 = true ∧ numHalfedges bigonLoad.2 = 2 := by
  decide

/-- C4 amended: `load` processes a face with fewer than 3 vertices exactly
like any other face.  For the two-vertex face `[0,1]` it allocates one
opposite pair of half-edges, assigns both of them to face 0, and links them
into a 2-cycle under `next`; construction succeeds. -/
theorem c4_short_face_processed :
    bigonLoad.1 = true ∧
    numHalfedges bigonLoad.2 = 2 ∧
    halfedgeAssociatedFace bigonLoad.2 0 = 0 ∧
    halfedgeAssociatedFace bigonLoad.2 1 = 0 ∧
    halfedgeNextHalfedge bigonLoad.2 0 = 1 ∧
    halfedgeNextHalfedge bigonLoad.2 1 = 0 ∧
    faceAssociatedHalfedge bigonLoad.2 0 = 1 := by
  decide

/-- C10 counterexample: loading the face `[0,0,1]` (a repeated consecutive
vertex produces a self-loop edge) succeeds; edge 1 is the self-loop, its
even half-edge `edgeAssociatedHalfedge(1, true) = 2` has source vertex 0 and
target vertex 0, so the source index is NOT strictly smaller than the
target index. -/
theorem c10_self_loop_not_strict :
    selfLoopLoad.1 = true ∧
    edgeAssociatedHalfedge selfLoopLoad.2 1 true = 2 ∧
    halfedgeSourceVertex selfLoopLoad.2 2 = 0 ∧
    halfedgeTargetVertex selfLoopLoad.2 2 = 0 ∧
    ¬ halfedgeSourceVertex selfLoopLoad.2 (edgeAssociatedHalfedge selfLoopLoad.2 1 true) <
        halfedgeTargetVertex selfLoopLoad.2 (edgeAssociatedHalfedge selfLoopLoad.2 1 true) := by
  decide

/-- C8: when a traversal range is given an explicit start element that is
not incident to the given center, iteration silently begins at the center's
default representative.  For `vertexHalfedges(center, outgoing := true,
clockwise, start)` with `halfedgeSourceVertex(start) ≠ center`, the
constructed iterator's start (and current) halfedge is
`vertexOutgoingHalfedge(center)`; for `faceHalfedges(center, positiveOrder,
start)` with `halfedgeAssociatedFace(start) ≠ center`, it is
`faceAssociatedHalfedge(center)`. -/
theorem c8_start_fallback (m : HalfedgeMesh) :
    (∀ center clockwise start, center < numVertices m →
      halfedgeSourceVertex m start ≠ center →
      (mkVHIter m center true clockwise false start).start = vertexOutgoingHalfedge m center ∧
      (mkVHIter m center true clockwise false start).current = vertexOutgoingHalfedge m center) ∧
    (∀ center positiveOrder start, center < numFaces m →
      halfedgeAssociatedFace m start ≠ center →
      (mkFHIter m center positiveOrder false start).start = faceAssociatedHalfedge m center ∧
      (mkFHIter m center positiveOrder false start).current = faceAssociatedHalfedge m center) := by
  constructor
  · intro center clockwise start hc hs
    have hlt : ¬ center ≥ numVertices m := by omega
    simp [mkVHIter, hlt, hs]
  · intro center positiveOrder start hc hs
    have hlt : ¬ center ≥ numFaces m := by omega
    simp [mkFHIter, hlt, hs]

/-- C8 witness: in the triangle mesh, halfedge 99 is out of range, so its
source vertex is the invalid handle and is not vertex 0; the rotation around
vertex 0 and the walk around face 0 both fall back to the default
representatives. -/
theorem c8_start_fallback_witness :
    (mkVHIter triLoad.2 0 true true false 99).start = vertexOutgoingHalfedge triLoad.2 0 ∧
    (mkFHIter triLoad.2 0 true false 99).start = faceAssociatedHalfedge triLoad.2 0 :=
  ⟨((c8_start_fallback triLoad.2).1 0 true 99 (by decide) (by decide)).1,
   ((c8_start_fallback triLoad.2).2 0 true 99 (by decide) (by decide)).1⟩

/-! #### Step helpers -/

theorem pairHalfedge_le (e : Nat) (dir : Bool) : pairHalfedge e dir ≤ 2 * e + 1 := by
  unfold pairHalfedge; split <;> omega

theorem edgeAssociatedHalfedge_eq (m : HalfedgeMesh) {e : Nat} (he : e < numEdges m)
    (dir : Bool) : edgeAssociatedHalfedge m e dir = pairHalfedge e dir := by
  unfold edgeAssociatedHalfedge pairHalfedge; rw [if_pos he]

theorem stepDir_true {f : List Nat} {n i : Nat} (h : stepDir f n i = true) :
    stepV1 f n i ≤ stepV2 f i ∧ stepKey f n i = (stepV1 f n i, stepV2 f i) := by
  unfold stepDir at h
  have hle : ¬ stepV1 f n i > stepV2 f i := by simpa using h
  exact ⟨by omega, by unfold stepKey; rw [if_neg hle]⟩

theorem stepDir_false {f : List Nat} {n i : Nat} (h : stepDir f n i = false) :
    stepV2 f i < stepV1 f n i ∧ stepKey f n i = (stepV2 f i, stepV1 f n i) := by
  unfold stepDir at h
  have hgt : stepV1 f n i > stepV2 f i := by simpa using h
  exact ⟨hgt, by unfold stepKey; rw [if_pos hgt]⟩

/-! #### Specification of the first per-face pass -/

/-- Behaviour of `pass1`: the mesh only grows its half-edge array (by one
default pair per new map entry), the edge map only grows (by keys taken from
the processed steps), the map invariant is preserved, and each produced
half-edge is the directed member of the pair of its step's key. -/
theorem pass1_spec (f : List Nat) (n : Nat) :
    ∀ (his : List Nat) (m : HalfedgeMesh) (ed : Edges), EdInv m ed →
    ∃ ext : List HalfedgeInfo, ∃ ned : Edges,
      (pass1 f n his m ed).1 = ⟨m.vertexInfo, m.halfedgeInfo ++ ext, m.faceInfo⟩ ∧
      (pass1 f n his m ed).2.1 = ed ++ ned ∧
      (∀ p ∈ ned, ∃ i ∈ his, p.1 = stepKey f n i) ∧
      EdInv (pass1 f n his m ed).1 (pass1 f n his m ed).2.1 ∧
      (pass1 f n his m ed).2.2.length = his.length ∧
      (∀ k : Nat, k < his.length → ∃ e : Nat,
        (stepKey f n (his.getD k 0), e) ∈ (pass1 f n his m ed).2.1 ∧
        (pass1 f n his m ed).2.2.getD k 0 = pairHalfedge e (stepDir f n (his.getD k 0)) ∧
        2 * e + 1 < (pass1 f n his m ed).1.halfedgeInfo.length) := by
  intro his
  induction his with
  | nil =>
    intro m ed hinv
    refine ⟨[], [], ?_, by simp [pass1], by simp [pass1], by simpa [pass1] using hinv,
      by simp [pass1], by simp [pass1]⟩
    cases m; simp [pass1]
  | cons hi rest ih =>
    intro m ed hinv
    cases hfe : findEdge ed (stepKey f n hi) with
    | some e =>
      have hmem : (stepKey f n hi, e) ∈ ed := findEdge_some hfe
      have helt : e < ed.length := mem_idx_lt hinv.pos hmem
      have hbnd : 2 * e + 1 < m.halfedgeInfo.length := by
        have := hinv.len; omega
      have hne : e < numEdges m := by
        unfold numEdges; omega
      have hP : pass1 f n (hi :: rest) m ed =
          ((pass1 f n rest m ed).1, (pass1 f n rest m ed).2.1,
            pairHalfedge e (stepDir f n hi) :: (pass1 f n rest m ed).2.2) := by
        rw [← edgeAssociatedHalfedge_eq m hne]
        simp only [pass1, hfe]
      obtain ⟨ext, ned, hshape, hed, hkeysrc, hinv2, hlen, hlink⟩ := ih m ed hinv
      refine ⟨ext, ned, by rw [hP]; exact hshape, by rw [hP]; exact hed, ?_,
        by rw [hP]; exact hinv2, by rw [hP]; simpa using hlen, ?_⟩
      · intro p hp
        obtain ⟨i, hi1, hi2⟩ := hkeysrc p hp
        exact ⟨i, List.mem_cons_of_mem hi hi1, hi2⟩
      · intro k hk
        rw [hP]
        match k with
        | 0 =>
          refine ⟨e, ?_, by simp, ?_⟩
          · rw [hed]
            simpa using List.mem_append_left _ hmem
          · rw [hshape]; simp only [List.length_append]; omega
        | k + 1 =>
          have hk' : k < rest.length := by simpa using hk
          obtain ⟨e', he1, he2, he3⟩ := hlink k hk'
          exact ⟨e', by simpa using he1, by simpa [List.getD_cons_succ] using he2, he3⟩
    | none =>
      set m1 : HalfedgeMesh :=
        ⟨m.vertexInfo, m.halfedgeInfo ++ [HalfedgeInfo.empty, HalfedgeInfo.empty], m.faceInfo⟩
        with hm1
      set ed1 : Edges := ed ++ [(stepKey f n hi, ed.length)] with hed1
      have hkeynew : stepKey f n hi ∉ ed.map Prod.fst := findEdge_none hfe
      have hinv1 : EdInv m1 ed1 := by
        refine ⟨?_, ?_, ?_⟩
        · intro i hilt
          rw [hed1] at hilt ⊢
          simp only [List.length_append, List.length_cons, List.length_nil] at hilt
          rcases Nat.lt_or_ge i ed.length with hlt | hge
          · rw [getD_append_left hlt]
            exact hinv.pos i hlt
          · have hieq : i = ed.length := by omega
            subst hieq
            rw [List.getD_eq_getElem _ dEd (by simp),
              List.getElem_append_right (Nat.le_refl _)]
            simp
        · rw [hm1, hed1]
          simp only [List.length_append, List.length_cons, List.length_nil]
          have := hinv.len; omega
        · rw [hed1, List.map_append, List.nodup_append]
          refine ⟨hinv.keys, by simp, ?_⟩
          intro a ha hb
          simp only [List.map_cons, List.map_nil, List.mem_singleton] at hb
          subst hb
          exact hkeynew ha
      have hne : ed.length < numEdges m1 := by
        unfold numEdges
        rw [hm1]
        simp only [List.length_append, List.length_cons, List.length_nil]
        have := hinv.len; omega
      have hP : pass1 f n (hi :: rest) m ed =
          ((pass1 f n rest m1 ed1).1, (pass1 f n rest m1 ed1).2.1,
            pairHalfedge ed.length (stepDir f n hi) :: (pass1 f n rest m1 ed1).2.2) := by
        rw [← edgeAssociatedHalfedge_eq m1 hne]
        simp only [pass1, hfe]
      obtain ⟨ext, ned, hshape, hed, hkeysrc, hinv2, hlen, hlink⟩ := ih m1 ed1 hinv1
      refine ⟨[HalfedgeInfo.empty, HalfedgeInfo.empty] ++ ext,
        (stepKey f n hi, ed.length) :: ned, ?_, ?_, ?_, by rw [hP]; exact hinv2,
        by rw [hP]; simpa using hlen, ?_⟩
      · rw [hP, hshape, hm1]
        simp [List.append_assoc]
      · rw [hP, hed, hed1]
        simp [List.append_assoc]
      · intro p hp
        rcases List.mem_cons.1 hp with heq | htail
        · exact ⟨hi, List.mem_cons_self hi rest, by rw [heq]⟩
        · obtain ⟨i, hi1, hi2⟩ := hkeysrc p htail
          exact ⟨i, List.mem_cons_of_mem hi hi1, hi2⟩
      · intro k hk
        rw [hP]
        match k with
        | 0 =>
          refine ⟨ed.length, ?_, by simp, ?_⟩
          · rw [hed]
            refine List.mem_append_left _ ?_
            rw [hed1]
            simp
          · rw [hshape, hm1]
            simp only [List.length_append, List.length_cons, List.length_nil]
            have := hinv.len; omega
        | k + 1 =>
          have hk' : k < rest.length := by simpa using hk
          obtain ⟨e', he1, he2, he3⟩ := hlink k hk'
          exact ⟨e', by simpa using he1, by simpa [List.getD_cons_succ] using he2, he3⟩

/-! #### Specification of the second per-face pass -/

/-- The opposite of a pair member (when in bounds) is the other member. -/
theorem opp_pair (m : HalfedgeMesh) (e : Nat) (dir : Bool)
    (hb : 2 * e + 1 < m.halfedgeInfo.length) :
    halfedgeOppositeHalfedge m (pairHalfedge e dir) =
      (if dir then e * 2 + 1 else e * 2) := by
  cases dir
  · rw [show pairHalfedge e false = e * 2 + 1 from rfl]
    unfold halfedgeOppositeHalfedge numHalfedges
    rw [if_pos (by omega : e * 2 + 1 < m.halfedgeInfo.length),
      if_pos (by omega : (e * 2 + 1) % 2 = 1)]
    simp
  · rw [show pairHalfedge e true = e * 2 from rfl]
    unfold halfedgeOppositeHalfedge numHalfedges
    rw [if_pos (by omega : e * 2 < m.halfedgeInfo.length),
      if_neg (by omega : ¬ (e * 2) % 2 = 1)]
    simp

theorem pass2Step_len (fi : Nat) (f : List Nat) (n : Nat) (hs : List Nat) (hi : Nat)
    (m : HalfedgeMesh) :
    (pass2Step fi f n hs hi m).halfedgeInfo.length = m.halfedgeInfo.length := by
  simp only [pass2Step]
  rw [len_setTarget, len_setHE, halfedgeInfo_setVertex]

theorem pass2Step_faceInfo (fi : Nat) (f : List Nat) (n : Nat) (hs : List Nat) (hi : Nat)
    (m : HalfedgeMesh) : (pass2Step fi f n hs hi m).faceInfo = m.faceInfo := by
  simp only [pass2Step]
  rw [faceInfo_setTarget, faceInfo_setHE, faceInfo_setVertex]

/-- The record written at the step's own half-edge. -/
theorem pass2Step_self (fi : Nat) (f : List Nat) (n : Nat) (hs : List Nat) (hi : Nat)
    (m : HalfedgeMesh) (hblt : hs.getD hi 0 < m.halfedgeInfo.length) :
    getHE (pass2Step fi f n hs hi m) (hs.getD hi 0) =
      ⟨hs.getD ((hi + 1) % n) 0, hs.getD ((hi + n - 1) % n) 0, stepV2 f hi, fi⟩ := by
  simp only [pass2Step]
  have hoppne : halfedgeOppositeHalfedge
      (setHE (setVertexHalfedgeIfUnset m (stepV1 f n hi) (hs.getD hi 0)) (hs.getD hi 0)
        ⟨hs.getD ((hi + 1) % n) 0, hs.getD ((hi + n - 1) % n) 0, stepV2 f hi, fi⟩)
      (hs.getD hi 0) ≠ hs.getD hi 0 := by
    unfold halfedgeOppositeHalfedge numHalfedges
    rw [len_setHE, halfedgeInfo_setVertex, if_pos hblt]
    by_cases hpar : hs.getD hi 0 % 2 = 1
    · rw [if_pos hpar]; omega
    · rw [if_neg hpar]; omega
  rw [getHE_setTarget_ne _ hoppne]
  exact getHE_setHE_self _ (by rw [halfedgeInfo_setVertex]; exact hblt) _

/-- A step never changes `next`/`prev`/`face` of any other record. -/
theorem pass2Step_fields (fi : Nat) (f : List Nat) (n : Nat) (hs : List Nat) (hi : Nat)
    (m : HalfedgeMesh) (q : Nat) (hq : q ≠ hs.getD hi 0) :
    (getHE (pass2Step fi f n hs hi m) q).next = (getHE m q).next ∧
    (getHE (pass2Step fi f n hs hi m) q).prev = (getHE m q).prev ∧
    (getHE (pass2Step fi f n hs hi m) q).face = (getHE m q).face := by
  simp only [pass2Step]
  obtain ⟨h1, h2, h3⟩ := getHE_setTarget_fields
    (setHE (setVertexHalfedgeIfUnset m (stepV1 f n hi) (hs.getD hi 0)) (hs.getD hi 0)
      ⟨hs.getD ((hi + 1) % n) 0, hs.getD ((hi + n - 1) % n) 0, stepV2 f hi, fi⟩)
    _ (stepV1 f n hi) q
  have hB : getHE
      (setHE (setVertexHalfedgeIfUnset m (stepV1 f n hi) (hs.getD hi 0)) (hs.getD hi 0)
        ⟨hs.getD ((hi + 1) % n) 0, hs.getD ((hi + n - 1) % n) 0, stepV2 f hi, fi⟩) q
      = getHE m q := by
    rw [getHE_setHE_ne _ (Ne.symm hq) _]
    unfold getHE
    rw [halfedgeInfo_setVertex]
  rw [hB] at h1 h2 h3
  exact ⟨h1, h2, h3⟩

/-- The two target writes of a step, expressed on the opposite pair of the
step's edge. -/
theorem pass2Step_pair (fi : Nat) (f : List Nat) (n : Nat) (hs : List Nat) (hi : Nat)
    (m : HalfedgeMesh) (e : Nat) (dir : Bool)
    (hhs : hs.getD hi 0 = pairHalfedge e dir)
    (hb : 2 * e + 1 < m.halfedgeInfo.length) :
    (getHE (pass2Step fi f n hs hi m) (e * 2)).target =
      (if dir then stepV2 f hi else stepV1 f n hi) ∧
    (getHE (pass2Step fi f n hs hi m) (e * 2 + 1)).target =
      (if dir then stepV1 f n hi else stepV2 f hi) := by
  simp only [pass2Step]
  rw [hhs]
  have hlenB : (setHE (setVertexHalfedgeIfUnset m (stepV1 f n hi) (pairHalfedge e dir))
      (pairHalfedge e dir)
      ⟨hs.getD ((hi + 1) % n) 0, hs.getD ((hi + n - 1) % n) 0, stepV2 f hi, fi⟩).halfedgeInfo.length
      = m.halfedgeInfo.length := by
    rw [len_setHE, halfedgeInfo_setVertex]
  rw [opp_pair _ e dir (by rw [hlenB]; exact hb)]
  cases dir
  · -- dir = false : the step's half-edge is the odd member `e*2+1`
    simp only [Bool.false_eq_true, if_false]
    constructor
    · rw [getHE_setTarget_self _ (by rw [hlenB]; omega) _]
    · have hne : (e * 2 : Nat) ≠ e * 2 + 1 := by omega
      rw [getHE_setTarget_ne _ hne _]
      rw [show pairHalfedge e false = e * 2 + 1 from rfl]
      rw [getHE_setHE_self _ (by rw [halfedgeInfo_setVertex]; omega) _]
  · -- dir = true : the step's half-edge is the even member `e*2`
    simp only [if_true]
    constructor
    · have hne : (e * 2 + 1 : Nat) ≠ e * 2 := by omega
      rw [getHE_setTarget_ne _ hne _]
      rw [show pairHalfedge e true = e * 2 from rfl]
      rw [getHE_setHE_self _ (by rw [halfedgeInfo_setVertex]; omega) _]
    · rw [getHE_setTarget_self _ (by rw [hlenB]; omega) _]

/-- A step leaves every record outside its own opposite pair untouched. -/
theorem pass2Step_other (fi : Nat) (f : List Nat) (n : Nat) (hs : List Nat) (hi : Nat)
    (m : HalfedgeMesh) (e : Nat) (dir : Bool)
    (hhs : hs.getD hi 0 = pairHalfedge e dir)
    (hb : 2 * e + 1 < m.halfedgeInfo.length)
    (q : Nat) (hq0 : q ≠ e * 2) (hq1 : q ≠ e * 2 + 1) :
    getHE (pass2Step fi f n hs hi m) q = getHE m q := by
  simp only [pass2Step]
  rw [hhs]
  have hlenB : (setHE (setVertexHalfedgeIfUnset m (stepV1 f n hi) (pairHalfedge e dir))
      (pairHalfedge e dir)
      ⟨hs.getD ((hi + 1) % n) 0, hs.getD ((hi + n - 1) % n) 0, stepV2 f hi, fi⟩).halfedgeInfo.length
      = m.halfedgeInfo.length := by
    rw [len_setHE, halfedgeInfo_setVertex]
  rw [opp_pair _ e dir (by rw [hlenB]; exact hb)]
  have hqp : pairHalfedge e dir ≠ q := by
    unfold pairHalfedge; cases dir <;> simp <;> omega
  have hqo : (if dir then e * 2 + 1 else e * 2) ≠ q := by
    cases dir <;> simp <;> omega
  rw [getHE_setTarget_ne _ hqo _, getHE_setHE_ne _ hqp _]
  unfold getHE
  rw [halfedgeInfo_setVertex]

/-- Behaviour of a successful `pass2`: array lengths and the face array are
unchanged; `next`/`prev`/`face` of every record already carrying a valid face
are preserved (the non-manifold check protects them); each processed step's
half-edge ends with the cyclic `next` link and face `fi`; each processed
half-edge had an invalid face on entry; and the processed half-edges are
pairwise distinct. -/
theorem pass2_spec (fi : Nat) (f : List Nat) (n : Nat) (hs : List Nat)
    (hfi : fi ≠ INVALID) :
    ∀ (his : List Nat) (m m2 : HalfedgeMesh),
    (∀ i ∈ his, hs.getD i 0 < m.halfedgeInfo.length) →
    pass2 fi f n hs his m = (true, m2) →
    m2.halfedgeInfo.length = m.halfedgeInfo.length ∧
    m2.faceInfo = m.faceInfo ∧
    (∀ h, (getHE m h).face ≠ INVALID →
      (getHE m2 h).next = (getHE m h).next ∧
      (getHE m2 h).prev = (getHE m h).prev ∧
      (getHE m2 h).face = (getHE m h).face) ∧
    (∀ i ∈ his,
      (getHE m2 (hs.getD i 0)).next = hs.getD ((i + 1) % n) 0 ∧
      (getHE m2 (hs.getD i 0)).face = fi) ∧
    (∀ i ∈ his, (getHE m (hs.getD i 0)).face = INVALID) ∧
    (∀ i ∈ his, ∀ j ∈ his, hs.getD i 0 = hs.getD j 0 → i = j) := by
  intro his
  induction his with
  | nil =>
    intro m m2 _ hrun
    have hm : m = m2 := by simpa [pass2] using hrun
    subst hm
    exact ⟨rfl, rfl, fun h _ => ⟨rfl, rfl, rfl⟩, by simp, by simp, by simp⟩
  | cons hi rest ih =>
    intro m m2 hbound hrun
    have hblt : hs.getD hi 0 < m.halfedgeInfo.length :=
      hbound hi (List.mem_cons_self hi rest)
    by_cases hchk : (getHE m (hs.getD hi 0)).face = INVALID
    case neg =>
      exfalso
      have hfail : pass2 fi f n hs (hi :: rest) m = (false, reset m) := by
        simp only [pass2]
        rw [if_pos hchk]
      rw [hfail] at hrun
      exact Bool.false_ne_true (congrArg Prod.fst hrun)
    case pos =>
      have hstep : pass2 fi f n hs (hi :: rest) m =
          pass2 fi f n hs rest (pass2Step fi f n hs hi m) := by
        simp only [pass2]
        rw [if_neg (fun hne => hne hchk)]
      rw [hstep] at hrun
      obtain ⟨m3, hm3⟩ : ∃ x, pass2Step fi f n hs hi m = x := ⟨_, rfl⟩
      rw [hm3] at hrun
      have hlen3 : m3.halfedgeInfo.length = m.halfedgeInfo.length := by
        rw [← hm3]; exact pass2Step_len fi f n hs hi m
      have hface3 : m3.faceInfo = m.faceInfo := by
        rw [← hm3]; exact pass2Step_faceInfo fi f n hs hi m
      have hget3h : getHE m3 (hs.getD hi 0) =
          ⟨hs.getD ((hi + 1) % n) 0, hs.getD ((hi + n - 1) % n) 0, stepV2 f hi, fi⟩ := by
        rw [← hm3]; exact pass2Step_self fi f n hs hi m hblt
      have hface3h : (getHE m3 (hs.getD hi 0)).face = fi := by rw [hget3h]
      have hget3fields : ∀ q, q ≠ hs.getD hi 0 →
          (getHE m3 q).next = (getHE m q).next ∧
          (getHE m3 q).prev = (getHE m q).prev ∧
          (getHE m3 q).face = (getHE m q).face := by
        intro q hq
        rw [← hm3]; exact pass2Step_fields fi f n hs hi m q hq
      have hbound3 : ∀ i ∈ rest, hs.getD i 0 < m3.halfedgeInfo.length := by
        intro i hi'
        rw [hlen3]
        exact hbound i (List.mem_cons_of_mem hi hi')
      obtain ⟨ihlen, ihface, ihpres, ihloop, ihfresh, ihdist⟩ := ih m3 m2 hbound3 hrun
      refine ⟨by rw [ihlen, hlen3], by rw [ihface, hface3], ?_, ?_, ?_, ?_⟩
      · intro q hq
        have hqh : q ≠ hs.getD hi 0 := fun he => hq (by rw [he]; exact hchk)
        obtain ⟨f1, f2, f3⟩ := hget3fields q hqh
        have hq3 : (getHE m3 q).face ≠ INVALID := by rw [f3]; exact hq
        obtain ⟨p1, p2, p3⟩ := ihpres q hq3
        exact ⟨by rw [p1, f1], by rw [p2, f2], by rw [p3, f3]⟩
      · intro i hi'
        rcases List.mem_cons.1 hi' with heq | htail
        · subst heq
          obtain ⟨p1, p2, p3⟩ := ihpres (hs.getD i 0) (by rw [hface3h]; exact hfi)
          exact ⟨by rw [p1, hget3h], by rw [p3, hface3h]⟩
        · exact ihloop i htail
      · intro i hi'
        rcases List.mem_cons.1 hi' with heq | htail
        · subst heq; exact hchk
        · have hfresh3 := ihfresh i htail
          by_cases hih : hs.getD i 0 = hs.getD hi 0
          · exfalso
            rw [hih, hface3h] at hfresh3
            exact hfi hfresh3
          · obtain ⟨-, -, f3⟩ := hget3fields _ hih
            rw [← f3]
            exact hfresh3
      · intro i hi' j hj' heqv
        rcases List.mem_cons.1 hi' with hieq | hitail <;>
          rcases List.mem_cons.1 hj' with hjeq | hjtail
        · rw [hieq, hjeq]
        · exfalso
          subst hieq
          have hx := ihfresh j hjtail
          rw [← heqv, hface3h] at hx
          exact hfi hx
        · exfalso
          subst hjeq
          have hx := ihfresh i hitail
          rw [heqv, hface3h] at hx
          exact hfi hx
        · exact ihdist i hitail j hjtail heqv

/-- With unique keys, two entries with the same key are the same entry. -/
theorem key_unique {ed : Edges} (hkeys : (ed.map Prod.fst).Nodup)
    {p q : (Nat × Nat) × Nat} (hp : p ∈ ed) (hq : q ∈ ed) (hk : p.1 = q.1) : p = q := by
  have h1 := findEdge_eq_some_of_mem hkeys (show (p.1, p.2) ∈ ed by simpa using hp)
  have h2 := findEdge_eq_some_of_mem hkeys (show (q.1, q.2) ∈ ed by simpa using hq)
  rw [hk] at h1
  rw [h1] at h2
  have h22 : p.2 = q.2 := Option.some.inj h2
  exact Prod.ext hk h22

/-- Target correctness of all edge-map entries after a successful `pass2`:
an entry that was already target-correct and whose key is not among the
remaining steps stays correct (the pass only writes the pair of the step's
own edge), and every entry whose key is some step's key becomes correct (the
writes at such a step are exactly the key's max into the even half-edge and
min into the odd one). -/
theorem pass2_targets (fi : Nat) (f : List Nat) (n : Nat) (hs : List Nat) (ed1 : Edges)
    (hpos : ∀ i : Nat, i < ed1.length → (ed1.getD i dEd).2 = i)
    (hkeys : (ed1.map Prod.fst).Nodup) :
    ∀ (his : List Nat) (m m2 : HalfedgeMesh),
    2 * ed1.length ≤ m.halfedgeInfo.length →
    (∀ i ∈ his, ∃ e, findEdge ed1 (stepKey f n i) = some e ∧
        hs.getD i 0 = pairHalfedge e (stepDir f n i)) →
    (∀ p ∈ ed1, Correct m p ∨ ∃ i ∈ his, stepKey f n i = p.1) →
    pass2 fi f n hs his m = (true, m2) →
    ∀ p ∈ ed1, Correct m2 p := by
  intro his
  induction his with
  | nil =>
    intro m m2 _ _ hinit hrun p hp
    have hm : m = m2 := by simpa [pass2] using hrun
    subst hm
    rcases hinit p hp with hc | ⟨i, hmem, _⟩
    · exact hc
    · exact absurd hmem (List.not_mem_nil i)
  | cons hi rest ih =>
    intro m m2 hlen hlink hinit hrun
    obtain ⟨e, hfe, hhs⟩ := hlink hi (List.mem_cons_self hi rest)
    have hedmem : (stepKey f n hi, e) ∈ ed1 := findEdge_some hfe
    have helt : e < ed1.length := mem_idx_lt hpos hedmem
    have hb : 2 * e + 1 < m.halfedgeInfo.length := by omega
    by_cases hchk : (getHE m (hs.getD hi 0)).face = INVALID
    case neg =>
      exfalso
      have hfail : pass2 fi f n hs (hi :: rest) m = (false, reset m) := by
        simp only [pass2]; rw [if_pos hchk]
      rw [hfail] at hrun
      exact Bool.false_ne_true (congrArg Prod.fst hrun)
    case pos =>
      have hstep : pass2 fi f n hs (hi :: rest) m =
          pass2 fi f n hs rest (pass2Step fi f n hs hi m) := by
        simp only [pass2]; rw [if_neg (fun hne => hne hchk)]
      rw [hstep] at hrun
      obtain ⟨m3, hm3⟩ : ∃ x, pass2Step fi f n hs hi m = x := ⟨_, rfl⟩
      rw [hm3] at hrun
      have hlen3 : m3.halfedgeInfo.length = m.halfedgeInfo.length := by
        rw [← hm3]; exact pass2Step_len fi f n hs hi m
      have hcorr_hi : ∀ p ∈ ed1, p.1 = stepKey f n hi → Correct m3 p := by
        intro p hp hpk
        have hpe : p = (stepKey f n hi, e) :=
          key_unique hkeys hp hedmem (by rw [hpk])
        obtain ⟨t0, t1⟩ := pass2Step_pair fi f n hs hi m e (stepDir f n hi) hhs hb
        rw [hm3] at t0 t1
        rw [hpe]
        have hmul : 2 * e = e * 2 := Nat.mul_comm 2 e
        cases hd : stepDir f n hi
        · obtain ⟨hlt, hkey⟩ := stepDir_false hd
          rw [hd] at t0 t1
          rw [if_neg (by simp : ¬ (false : Bool) = true)] at t0
          rw [if_neg (by simp : ¬ (false : Bool) = true)] at t1
          refine ⟨?_, ?_, ?_⟩
          · rw [hkey]; exact Nat.le_of_lt hlt
          · show (getHE m3 (2 * e)).target = (stepKey f n hi).2
            rw [hmul, t0, hkey]
          · show (getHE m3 (2 * e + 1)).target = (stepKey f n hi).1
            rw [hmul, t1, hkey]
        · obtain ⟨hle, hkey⟩ := stepDir_true hd
          rw [hd] at t0 t1
          rw [if_pos rfl] at t0
          rw [if_pos rfl] at t1
          refine ⟨?_, ?_, ?_⟩
          · rw [hkey]; exact hle
          · show (getHE m3 (2 * e)).target = (stepKey f n hi).2
            rw [hmul, t0, hkey]
          · show (getHE m3 (2 * e + 1)).target = (stepKey f n hi).1
            rw [hmul, t1, hkey]
      have hnext_init : ∀ p ∈ ed1, Correct m3 p ∨ ∃ i ∈ rest, stepKey f n i = p.1 := by
        intro p hp
        by_cases hpk : p.1 = stepKey f n hi
        · exact Or.inl (hcorr_hi p hp hpk)
        · rcases hinit p hp with hc | ⟨i, hmem, hkeq⟩
          · have hne2 : p.2 ≠ e := by
              intro h2
              apply hpk
              have hpeq := mem_idx_eq hpos hp
              have hqeq := mem_idx_eq hpos hedmem
              rw [h2] at hpeq
              simp only at hqeq
              rw [← hqeq] at hpeq
              rw [hpeq]
            have hu0 : getHE m3 (2 * p.2) = getHE m (2 * p.2) := by
              rw [← hm3]
              exact pass2Step_other fi f n hs hi m e (stepDir f n hi) hhs hb _
                (by omega) (by omega)
            have hu1 : getHE m3 (2 * p.2 + 1) = getHE m (2 * p.2 + 1) := by
              rw [← hm3]
              exact pass2Step_other fi f n hs hi m e (stepDir f n hi) hhs hb _
                (by omega) (by omega)
            exact Or.inl ⟨hc.1, by rw [hu0]; exact hc.2.1, by rw [hu1]; exact hc.2.2⟩
          · rcases List.mem_cons.1 hmem with hieq | hitail
            · exact absurd (by rw [← hkeq, hieq]) hpk
            · exact Or.inr ⟨i, hitail, hkeq⟩
      have hlen' : 2 * ed1.length ≤ m3.halfedgeInfo.length := by
        rw [hlen3]; exact hlen
      have hlink' : ∀ i ∈ rest, ∃ e0, findEdge ed1 (stepKey f n i) = some e0 ∧
          hs.getD i 0 = pairHalfedge e0 (stepDir f n i) :=
        fun i hi' => hlink i (List.mem_cons_of_mem hi hi')
      exact ih m3 m2 hlen' hlink' hnext_init hrun

/-! #### Specification of the outer face loop -/

theorem getHE_congr {m m' : HalfedgeMesh} (h : m.halfedgeInfo = m'.halfedgeInfo)
    (q : Nat) : getHE m q = getHE m' q := by
  unfold getHE; rw [h]

theorem getHE_oob {m : HalfedgeMesh} {q : Nat} (h : m.halfedgeInfo.length ≤ q) :
    getHE m q = HalfedgeInfo.empty := by
  unfold getHE; exact List.getD_eq_default _ _ h

theorem getD_range {n k : Nat} (h : k < n) : (List.range n).getD k 0 = k := by
  rw [List.getD_eq_getElem _ _ (by simpa using h)]
  exact List.getElem_range k (by simpa using h)

/-- The main invariant of the face loop of `load` on a fresh mesh: a
successful run preserves the face count, only grows the half-edge array,
ends with a target-correct edge map covering exactly the half-edge pairs,
preserves the face records and face loops built for earlier faces, and
builds a complete `FaceLoop` for every face it processes. -/
theorem loadLoop_spec :
    ∀ (rest : List (List Nat)) (fi : Nat) (m : HalfedgeMesh) (ed : Edges)
      (m2 : HalfedgeMesh),
    EdInv m ed →
    (∀ p ∈ ed, Correct m p) →
    fi + rest.length ≤ m.faceInfo.length →
    m.faceInfo.length ≤ INVALID →
    loadLoop rest fi m ed = (true, m2) →
    m2.faceInfo.length = m.faceInfo.length ∧
    m.halfedgeInfo.length ≤ m2.halfedgeInfo.length ∧
    (∃ ed2 : Edges, EdInv m2 ed2 ∧ ∀ p ∈ ed2, Correct m2 p) ∧
    (∀ j, j < fi → getFI m2 j = getFI m j) ∧
    (∀ h, (getHE m h).face ≠ INVALID →
      (getHE m2 h).next = (getHE m h).next ∧
      (getHE m2 h).face = (getHE m h).face) ∧
    (∀ k : Nat, k < rest.length → FaceLoop m2 (rest.getD k []) (fi + k)) := by
  intro rest
  induction rest with
  | nil =>
    intro fi m ed m2 hinv hcorr _ _ hrun
    have hm : m = m2 := by simpa [loadLoop] using hrun
    subst hm
    exact ⟨rfl, Nat.le_refl _, ⟨ed, hinv, hcorr⟩, fun j _ => rfl,
      fun h _ => ⟨rfl, rfl⟩, by simp⟩
  | cons fc rest' ih =>
    intro fi m ed m2 hinv hcorr hfit hinvd hrun
    have hfi_lt : fi < m.faceInfo.length := by
      simp only [List.length_cons] at hfit; omega
    have hfi_ne : fi ≠ INVALID := by omega
    simp only [loadLoop] at hrun
    obtain ⟨ext, ned, hshape, hed, hnewkeys, hinv1, hlenhs, hlink0⟩ :=
      pass1_spec fc fc.length (List.range fc.length) m ed hinv
    obtain ⟨b, mB, hp2⟩ : ∃ b mB,
        pass2 fi fc fc.length (pass1 fc fc.length (List.range fc.length) m ed).2.2
          (List.range fc.length) (pass1 fc fc.length (List.range fc.length) m ed).1 =
        (b, mB) := ⟨_, _, rfl⟩
    rw [hp2] at hrun
    cases b
    · simp at hrun
    · simp only [] at hrun
      -- abbreviations
      have hlenA : m.halfedgeInfo.length ≤
          (pass1 fc fc.length (List.range fc.length) m ed).1.halfedgeInfo.length := by
        rw [hshape]; simp
      have hfaceA : (pass1 fc fc.length (List.range fc.length) m ed).1.faceInfo
          = m.faceInfo := by rw [hshape]
      have hrg : ∀ k, k < fc.length → (List.range fc.length).getD k 0 = k :=
        fun k hk => getD_range hk
      have hlenhs' : (pass1 fc fc.length (List.range fc.length) m ed).2.2.length
          = fc.length := by rw [hlenhs, List.length_range]
      have hlink : ∀ k, k < fc.length → ∃ e : Nat,
          (stepKey fc fc.length k, e) ∈ (pass1 fc fc.length (List.range fc.length) m ed).2.1 ∧
          (pass1 fc fc.length (List.range fc.length) m ed).2.2.getD k 0 =
            pairHalfedge e (stepDir fc fc.length k) ∧
          2 * e + 1 <
            (pass1 fc fc.length (List.range fc.length) m ed).1.halfedgeInfo.length := by
        intro k hk
        obtain ⟨e, h1, h2, h3⟩ := hlink0 k (by rw [List.length_range]; exact hk)
        rw [hrg k hk] at h1 h2
        exact ⟨e, h1, h2, h3⟩
      have hbnd : ∀ i ∈ List.range fc.length,
          (pass1 fc fc.length (List.range fc.length) m ed).2.2.getD i 0 <
          (pass1 fc fc.length (List.range fc.length) m ed).1.halfedgeInfo.length := by
        intro i hi'
        obtain ⟨e, _, h2, h3⟩ := hlink i (List.mem_range.1 hi')
        rw [h2]
        have := pairHalfedge_le e (stepDir fc fc.length i)
        omega
      obtain ⟨p2len, p2face, p2pres, p2loop, p2fresh, p2dist⟩ :=
        pass2_spec fi fc fc.length (pass1 fc fc.length (List.range fc.length) m ed).2.2
          hfi_ne (List.range fc.length)
          (pass1 fc fc.length (List.range fc.length) m ed).1 mB hbnd hp2
      have hlinkF : ∀ i ∈ List.range fc.length, ∃ e : Nat,
          findEdge (pass1 fc fc.length (List.range fc.length) m ed).2.1
            (stepKey fc fc.length i) = some e ∧
          (pass1 fc fc.length (List.range fc.length) m ed).2.2.getD i 0 =
            pairHalfedge e (stepDir fc fc.length i) := by
        intro i hi'
        obtain ⟨e, h1, h2, _⟩ := hlink i (List.mem_range.1 hi')
        exact ⟨e, findEdge_eq_some_of_mem hinv1.keys h1, h2⟩
      have hinit : ∀ p ∈ (pass1 fc fc.length (List.range fc.length) m ed).2.1,
          Correct (pass1 fc fc.length (List.range fc.length) m ed).1 p ∨
          ∃ i ∈ List.range fc.length, stepKey fc fc.length i = p.1 := by
        intro p hp
        rw [hed] at hp
        rcases List.mem_append.1 hp with hold | hnew
        · left
          have hplt : p.2 < ed.length := mem_idx_lt hinv.pos hold
          have hb2 : 2 * p.2 + 1 < m.halfedgeInfo.length := by
            have := hinv.len; omega
          have hg0 : getHE (pass1 fc fc.length (List.range fc.length) m ed).1 (2 * p.2)
              = getHE m (2 * p.2) := by
            unfold getHE
            rw [hshape]
            exact getD_append_left (by omega) _
          have hg1 : getHE (pass1 fc fc.length (List.range fc.length) m ed).1 (2 * p.2 + 1)
              = getHE m (2 * p.2 + 1) := by
            unfold getHE
            rw [hshape]
            exact getD_append_left (by omega) _
          obtain ⟨c1, c2, c3⟩ := hcorr p hold
          exact ⟨c1, by rw [hg0]; exact c2, by rw [hg1]; exact c3⟩
        · obtain ⟨i, hi1, hi2⟩ := hnewkeys p hnew
          exact Or.inr ⟨i, hi1, hi2.symm⟩
      have hcorrB : ∀ p ∈ (pass1 fc fc.length (List.range fc.length) m ed).2.1,
          Correct mB p :=
        pass2_targets fi fc fc.length
          (pass1 fc fc.length (List.range fc.length) m ed).2.2
          (pass1 fc fc.length (List.range fc.length) m ed).2.1
          hinv1.pos hinv1.keys (List.range fc.length)
          (pass1 fc fc.length (List.range fc.length) m ed).1 mB
          (by rw [hinv1.len]) hlinkF hinit hp2
      -- the mesh passed to the recursive call
      have hgetC : ∀ q, getHE (setFaceHalfedge mB fi
          ((pass1 fc fc.length (List.range fc.length) m ed).2.2.getD 0 INVALID)) q
          = getHE mB q := fun q => rfl
      have hfaceClen : (setFaceHalfedge mB fi
          ((pass1 fc fc.length (List.range fc.length) m ed).2.2.getD 0 INVALID)).faceInfo.length
          = m.faceInfo.length := by
        rw [faceInfoLen_setFace, p2face, hfaceA]
      have hlenC : (setFaceHalfedge mB fi
          ((pass1 fc fc.length (List.range fc.length) m ed).2.2.getD 0 INVALID)).halfedgeInfo.length
          = mB.halfedgeInfo.length := rfl
      have hinvC : EdInv (setFaceHalfedge mB fi
          ((pass1 fc fc.length (List.range fc.length) m ed).2.2.getD 0 INVALID))
          (pass1 fc fc.length (List.range fc.length) m ed).2.1 := by
        refine ⟨hinv1.pos, ?_, hinv1.keys⟩
        rw [hlenC, p2len, hinv1.len]
      have hcorrC : ∀ p ∈ (pass1 fc fc.length (List.range fc.length) m ed).2.1,
          Correct (setFaceHalfedge mB fi
            ((pass1 fc fc.length (List.range fc.length) m ed).2.2.getD 0 INVALID)) p := by
        intro p hp
        obtain ⟨c1, c2, c3⟩ := hcorrB p hp
        exact ⟨c1, by rw [hgetC]; exact c2, by rw [hgetC]; exact c3⟩
      obtain ⟨r1, r2, r3, r4, r5, r6⟩ := ih (fi + 1)
        (setFaceHalfedge mB fi
          ((pass1 fc fc.length (List.range fc.length) m ed).2.2.getD 0 INVALID))
        (pass1 fc fc.length (List.range fc.length) m ed).2.1 m2
        hinvC hcorrC
        (by rw [hfaceClen]; simp only [List.length_cons] at hfit; omega)
        (by rw [hfaceClen]; exact hinvd)
        hrun
      -- the face loop of the face processed in this iteration, at state C
      have hfl : FaceLoop m2 fc fi := by
        refine ⟨(pass1 fc fc.length (List.range fc.length) m ed).2.2, hlenhs', ?_, ?_, ?_⟩
        · intro hfcne
          have hnpos : 0 < fc.length := List.length_pos.2 hfcne
          have hfAssoc : faceAssociatedHalfedge m2 fi =
              (getFI m2 fi).halfedge := by
            unfold faceAssociatedHalfedge numFaces
            rw [if_pos (by rw [r1, hfaceClen]; exact hfi_lt)]
          rw [hfAssoc, r4 fi (by omega), getFI_setFace_self mB
            (by rw [p2face, hfaceA]; exact hfi_lt) _]
          exact getD_default_irrel (by rw [hlenhs']; exact hnpos) _ _
        · intro i hilt
          obtain ⟨e, _, h2, h3⟩ := hlink i hilt
          have hblt : (pass1 fc fc.length (List.range fc.length) m ed).2.2.getD i 0 <
              mB.halfedgeInfo.length := by
            rw [p2len]
            exact hbnd i (List.mem_range.2 hilt)
          obtain ⟨l1, l2⟩ := p2loop i (List.mem_range.2 hilt)
          have hfvalid : (getHE (setFaceHalfedge mB fi
              ((pass1 fc fc.length (List.range fc.length) m ed).2.2.getD 0 INVALID))
              ((pass1 fc fc.length (List.range fc.length) m ed).2.2.getD i 0)).face
              ≠ INVALID := by
            rw [hgetC, l2]; exact hfi_ne
          obtain ⟨q1, q2⟩ := r5 _ hfvalid
          refine ⟨?_, ?_, ?_⟩
          · calc (pass1 fc fc.length (List.range fc.length) m ed).2.2.getD i 0
                < mB.halfedgeInfo.length := hblt
              _ ≤ m2.halfedgeInfo.length := by
                  have := r2; rw [hlenC] at this; exact this
          · rw [q1, hgetC, l1]
          · rw [q2, hgetC, l2]
        · intro i j hilt hjlt heqv
          exact p2dist i (List.mem_range.2 hilt) j (List.mem_range.2 hjlt) heqv
      refine ⟨by rw [r1, hfaceClen], ?_, r3, ?_, ?_, ?_⟩
      · calc m.halfedgeInfo.length
            ≤ (pass1 fc fc.length (List.range fc.length) m ed).1.halfedgeInfo.length :=
              hlenA
          _ = mB.halfedgeInfo.length := p2len.symm
          _ ≤ m2.halfedgeInfo.length := by
              have := r2; rw [hlenC] at this; exact this
      · intro j hj
        rw [r4 j (by omega), getFI_setFace_ne mB (by omega) _]
        unfold getFI
        rw [p2face, hfaceA]
      · intro q hq
        have hqlt : q < m.halfedgeInfo.length := by
          by_contra hge
          rw [getHE_oob (by omega)] at hq
          exact hq rfl
        have hgA : getHE (pass1 fc fc.length (List.range fc.length) m ed).1 q
            = getHE m q := by
          unfold getHE
          rw [hshape]
          exact getD_append_left hqlt _
        have hqA : (getHE (pass1 fc fc.length (List.range fc.length) m ed).1 q).face
            ≠ INVALID := by rw [hgA]; exact hq
        obtain ⟨b1, _, b3⟩ := p2pres q hqA
        have hqC : (getHE (setFaceHalfedge mB fi
            ((pass1 fc fc.length (List.range fc.length) m ed).2.2.getD 0 INVALID)) q).face
            ≠ INVALID := by
          rw [hgetC, b3, hgA]; exact hq
        obtain ⟨c1, c3⟩ := r5 q hqC
        constructor
        · rw [c1, hgetC, b1, hgA]
        · rw [c3, hgetC, b3, hgA]
      · intro k hk
        match k with
        | 0 => simpa using hfl
        | k + 1 =>
          have hk' : k < rest'.length := by simpa using hk
          have := r6 k hk'
          rw [show fi + (k + 1) = fi + 1 + k by omega]
          simpa [List.getD_cons_succ] using this

/-- What a successful `load` on a freshly constructed mesh guarantees: the
face count equals the input face count, the edge map invariant and target
correctness hold for a map covering all half-edge pairs, and every face has
a complete boundary loop. -/
theorem load_spec (points : List Vec3) (faces : List (List Nat)) (m2 : HalfedgeMesh)
    (hlen : faces.length ≤ INVALID)
    (hrun : load emptyMesh points faces = (true, m2)) :
    numFaces m2 = faces.length ∧
    (∃ ed2 : Edges, EdInv m2 ed2 ∧ ∀ p ∈ ed2, Correct m2 p) ∧
    (∀ k, k < faces.length → FaceLoop m2 (faces.getD k []) k) := by
  have hunf : load emptyMesh points faces = loadLoop faces 0
      ⟨List.replicate points.length VertexInfo.empty, [],
        List.replicate faces.length FaceInfo.empty⟩ [] := by
    simp [load, reset, emptyMesh, resizeWith]
  rw [hunf] at hrun
  obtain ⟨r1, r2, r3, r4, r5, r6⟩ := loadLoop_spec faces 0
    ⟨List.replicate points.length VertexInfo.empty, [],
      List.replicate faces.length FaceInfo.empty⟩ [] m2
    ⟨by intro i h; simp at h, by simp, by simp⟩
    (by intro p hp; simp at hp)
    (by simp)
    (by simpa using hlen)
    hrun
  refine ⟨?_, r3, ?_⟩
  · unfold numFaces
    rw [r1]
    simp
  · intro k hk
    simpa using r6 k hk

/-- C2: after a successful `load` of a well-formed input into a fresh mesh,
for every face `fi`, iterating `halfedgeNextHalfedge` from
`faceAssociatedHalfedge fi` returns to the start after exactly as many steps
as the face has boundary vertices — it closes at that count, every visited
half-edge's associated face is `fi`, and no earlier positive step count
returns to the start. -/
theorem c2_face_loop_closure (points : List Vec3) (faces : List (List Nat))
    (m2 : HalfedgeMesh) (hwf : WFInput points faces)
    (hrun : load emptyMesh points faces = (true, m2)) :
    ∀ fi, fi < numFaces m2 →
      ((halfedgeNextHalfedge m2)^[(faces.getD fi []).length]
          (faceAssociatedHalfedge m2 fi) = faceAssociatedHalfedge m2 fi) ∧
      (∀ k, k < (faces.getD fi []).length →
        halfedgeAssociatedFace m2 ((halfedgeNextHalfedge m2)^[k]
          (faceAssociatedHalfedge m2 fi)) = fi) ∧
      (∀ k, 0 < k → k < (faces.getD fi []).length →
        (halfedgeNextHalfedge m2)^[k] (faceAssociatedHalfedge m2 fi) ≠
          faceAssociatedHalfedge m2 fi) := by
  obtain ⟨hnum, _, hfl⟩ := load_spec points faces m2 hwf.1 hrun
  intro fi hfi
  rw [hnum] at hfi
  obtain ⟨hs, hlen, hassoc, hloop, hdist⟩ := hfl fi hfi
  have hfne : faces.getD fi [] ≠ [] := by
    rw [List.getD_eq_getElem _ _ hfi]
    exact hwf.2.1 _ (List.getElem_mem hfi)
  have hnpos : 0 < (faces.getD fi []).length := List.length_pos.2 hfne
  have hstart := hassoc hfne
  have hmod : ∀ k : Nat, (k % (faces.getD fi []).length + 1) % (faces.getD fi []).length
      = (k + 1) % (faces.getD fi []).length := by
    intro k
    rcases Nat.lt_or_ge 1 (faces.getD fi []).length with h1 | h1
    · conv_rhs => rw [Nat.add_mod]
      rw [Nat.mod_eq_of_lt h1]
    · have hone : (faces.getD fi []).length = 1 := by omega
      simp [hone, Nat.mod_one]
  have hiter : ∀ k : Nat, (halfedgeNextHalfedge m2)^[k] (hs.getD 0 0) =
      hs.getD (k % (faces.getD fi []).length) 0 := by
    intro k
    induction k with
    | zero => simp [Nat.zero_mod]
    | succ k ihk =>
      rw [Function.iterate_succ_apply', ihk]
      have hkn : k % (faces.getD fi []).length < (faces.getD fi []).length :=
        Nat.mod_lt _ hnpos
      obtain ⟨hb, hnext, _⟩ := hloop _ hkn
      have hstep : halfedgeNextHalfedge m2 (hs.getD (k % (faces.getD fi []).length) 0)
          = hs.getD ((k % (faces.getD fi []).length + 1) % (faces.getD fi []).length) 0 := by
        unfold halfedgeNextHalfedge numHalfedges
        rw [if_pos hb, hnext]
      rw [hstep, hmod k]
  refine ⟨?_, ?_, ?_⟩
  · rw [hstart, hiter, Nat.mod_self, ← hstart]
  · intro k hk
    rw [hstart, hiter, Nat.mod_eq_of_lt hk]
    obtain ⟨hb, _, hface⟩ := hloop k hk
    unfold halfedgeAssociatedFace numHalfedges
    rw [if_pos hb, hface]
  · intro k hk0 hk
    rw [hstart, hiter, Nat.mod_eq_of_lt hk]
    intro heqv
    have := hdist k 0 hk hnpos (by rw [heqv, ← hstart, hstart])
    omega

/-- C2 witness: the triangle's single face closes after exactly 3 `next`
steps, and the half-edge one step in still borders face 0. -/
theorem c2_face_loop_closure_witness :
    ((halfedgeNextHalfedge triLoad.2)^[3] (faceAssociatedHalfedge triLoad.2 0) =
      faceAssociatedHalfedge triLoad.2 0) ∧
    halfedgeAssociatedFace triLoad.2
      ((halfedgeNextHalfedge triLoad.2)^[1] (faceAssociatedHalfedge triLoad.2 0)) = 0 :=
  ⟨(c2_face_loop_closure triPoints triFaces triLoad.2 (by decide) (by decide)
      0 (by decide)).1,
   (c2_face_loop_closure triPoints triFaces triLoad.2 (by decide) (by decide)
      0 (by decide)).2.1 1 (by decide)⟩

/-- C3: after a successful `load` of a well-formed input into a fresh mesh,
the parity-flip opposite is an involution on all half-edges — half-edges are
allocated two at a time from an empty array, so `numHalfedges` is even and
the flip never leaves the array. -/
theorem c3_opposite_involution (points : List Vec3) (faces : List (List Nat))
    (m2 : HalfedgeMesh) (hwf : WFInput points faces)
    (hrun : load emptyMesh points faces = (true, m2)) :
    ∀ h, h < numHalfedges m2 →
      halfedgeOppositeHalfedge m2 (halfedgeOppositeHalfedge m2 h) = h := by
  obtain ⟨_, ⟨ed2, hinv2, _⟩, _⟩ := load_spec points faces m2 hwf.1 hrun
  have hev : numHalfedges m2 % 2 = 0 := by
    unfold numHalfedges
    have := hinv2.len
    omega
  intro h hlt
  by_cases hpar : h % 2 = 1
  · have h1 : halfedgeOppositeHalfedge m2 h = h - 1 := by
      unfold halfedgeOppositeHalfedge
      rw [if_pos hlt, if_pos hpar]
    rw [h1]
    unfold halfedgeOppositeHalfedge
    rw [if_pos (by omega), if_neg (by omega)]
    omega
  · have h1 : halfedgeOppositeHalfedge m2 h = h + 1 := by
      unfold halfedgeOppositeHalfedge
      rw [if_pos hlt, if_neg hpar]
    rw [h1]
    unfold halfedgeOppositeHalfedge
    rw [if_pos (by omega), if_pos (by omega)]
    omega

/-- C3 witness: opposite is an involution at half-edge 4 of the triangle. -/
theorem c3_opposite_involution_witness :
    halfedgeOppositeHalfedge triLoad.2 (halfedgeOppositeHalfedge triLoad.2 4) = 4 :=
  c3_opposite_involution triPoints triFaces triLoad.2 (by decide) (by decide)
    4 (by decide)

/-- C10 amended: after a successful `load` of a well-formed input into a
fresh mesh, for every edge `e` the even half-edge of the pair
(`edgeAssociatedHalfedge e true`) points from the smaller-or-equal-indexed
vertex to the larger: its source vertex index is at most its target vertex
index (equality occurs exactly for degenerate self-loop edges). -/
theorem c10_even_halfedge_source_le_target (points : List Vec3)
    (faces : List (List Nat)) (m2 : HalfedgeMesh) (hwf : WFInput points faces)
    (hrun : load emptyMesh points faces = (true, m2)) :
    ∀ e, e < numEdges m2 →
      halfedgeSourceVertex m2 (edgeAssociatedHalfedge m2 e true) ≤
        halfedgeTargetVertex m2 (edgeAssociatedHalfedge m2 e true) := by
  obtain ⟨_, ⟨ed2, hinv2, hcorr2⟩, _⟩ := load_spec points faces m2 hwf.1 hrun
  intro e he
  have helt : e < ed2.length := by
    unfold numEdges at he
    have := hinv2.len
    omega
  have hb : 2 * e + 1 < m2.halfedgeInfo.length := by
    have := hinv2.len
    omega
  have hpm : ed2.getD e dEd ∈ ed2 := by
    rw [List.getD_eq_getElem _ _ helt]
    exact List.getElem_mem helt
  have hp2 : (ed2.getD e dEd).2 = e := hinv2.pos e helt
  obtain ⟨c1, c2, c3⟩ := hcorr2 _ hpm
  rw [hp2] at c2 c3
  have hassoc : edgeAssociatedHalfedge m2 e true = e * 2 := by
    unfold edgeAssociatedHalfedge
    rw [if_pos he]
    rfl
  have hopp : halfedgeOppositeHalfedge m2 (e * 2) = e * 2 + 1 := by
    unfold halfedgeOppositeHalfedge numHalfedges
    rw [if_pos (by omega), if_neg (by omega)]
  have hsrc : halfedgeSourceVertex m2 (e * 2) = (ed2.getD e dEd).1.1 := by
    unfold halfedgeSourceVertex
    rw [hopp]
    unfold halfedgeTargetVertex numHalfedges
    rw [if_pos (by omega)]
    rw [show e * 2 + 1 = 2 * e + 1 by omega]
    exact c3
  have htgt : halfedgeTargetVertex m2 (e * 2) = (ed2.getD e dEd).1.2 := by
    unfold halfedgeTargetVertex numHalfedges
    rw [if_pos (by omega)]
    rw [show e * 2 = 2 * e by omega]
    exact c2
  rw [hassoc, hsrc, htgt]
  exact c1

/-- C10 amended witness: at edge 0 of the loaded triangle the even half-edge
runs from the smaller to the larger vertex index. -/
theorem c10_even_halfedge_source_le_target_witness :
    halfedgeSourceVertex triLoad.2 (edgeAssociatedHalfedge triLoad.2 0 true) ≤
      halfedgeTargetVertex triLoad.2 (edgeAssociatedHalfedge triLoad.2 0 true) :=
  c10_even_halfedge_source_le_target triPoints triFaces triLoad.2 (by decide)
    (by decide) 0 (by decide)

end Geo
